import Mathlib

/-!
Verification of the ball-sort puzzle core (src/src/App.tsx).

The source is a React component whose core logic is:
  * `generateBalls` — validation of the ball/color configuration and batch spawning,
  * the per-frame `animate` step — cursor repulsion, pairwise collision response,
    integration, friction, speed clamp and boundary reflection,
  * `checkWin` / `getHighlight` — a stack-based reachability traversal over
    same-color balls with adjacency radius `GROUP_RADIUS`.

Numbers: JS numbers are modelled as exact arithmetic.  The connectivity analyzer
only ever compares `Math.hypot dx dy` against a nonnegative constant, so it is
embedded over `ℚ`, with the comparison encoded as `dx^2 + dy^2 ≤ r^2`; the lemma
`sqrt_le_iff_sq_le` below proves this encoding equivalent to the square-root
comparison.  The physics step genuinely uses the value of `Math.hypot` (unit
vectors, speed rescaling), so it is embedded as a deterministic step relation
over `ℝ` in which each `Math.hypot dx dy` value is characterised by
`hypotRel dx dy d` (`0 ≤ d ∧ d^2 = dx^2 + dy^2`), which pins it down uniquely.

Ball identity: the JS traversals track visited balls by object reference; the
embedding uses list indices as identities, with `ballAt` for lookup.
-/

/-- Arena width in pixels (`FIELD_WIDTH = 600`). -/
def FIELD_WIDTH : ℚ := 600

/-- Arena height in pixels (`FIELD_HEIGHT = 500`). -/
def FIELD_HEIGHT : ℚ := 500

/-- Ball diameter in pixels (`BALL_SIZE = 20`). -/
def BALL_SIZE : ℚ := 20

/-- Adjacency radius for clustering (`GROUP_RADIUS = 100`). -/
def GROUP_RADIUS : ℚ := 100

/-- Cursor repulsion radius (`PUSH_RADIUS = 150`). -/
def PUSH_RADIUS : ℚ := 150

/-- Cursor repulsion force at contact (`PUSH_FORCE = 2.5`). -/
def PUSH_FORCE : ℚ := 2.5

/-- Speed clamp bound (`MAX_SPEED = 6`). -/
def MAX_SPEED : ℚ := 6

/-- Per-frame velocity damping factor (`FRICTION = 0.97`). -/
def FRICTION : ℚ := 0.97

/-- The `Ball` entity of the source (`interface Ball`): top-left position,
velocity and an immutable color label.  The `el` field (the opaque rendering
handle owned by the presentation layer, never dereferenced by the core) is
omitted.  The numeric type is a parameter: the connectivity analyzer is
instantiated at `ℚ`, the physics step relation at `ℝ`. -/
structure Ball (α : Type) where
  x : α
  y : α
  vx : α
  vy : α
  color : String

/-- A cursor position sample (`interface Position`). -/
structure Position where
  x : ℝ
  y : ℝ

/-- The fixed ordered palette of `generateBalls`. -/
def palette : List String := ["red", "green", "blue", "yellow", "purple", "orange"]

/-- The validation error message produced by `generateBalls` (the JS template
literal, rebuilt with string concatenation). -/
def errorMsg (ballCount colorCount : ℕ) : String :=
  "Error: For " ++ toString colorCount ++ " colors, you need at least " ++
    toString (colorCount * 2) ++ " balls. Currently set: " ++ toString ballCount ++ "."

/-- Embedding of `generateBalls`.  `rand i` supplies the two `Math.random()`
samples used for ball `i`'s x and y coordinates.  The result pairs the error
message state (`setErrorMessage`) with the returned batch: on validation
failure the message is set and the batch is empty, otherwise the message is
cleared and `ballCount` balls are produced, ball `i` colored
`colors[i % colorCount]` (out-of-range palette access, which JS answers with
`undefined`, is modelled by the default `"undefined"`). -/
def generateBalls (ballCount colorCount : ℕ) (rand : ℕ → ℚ × ℚ) :
    Option String × List (Ball ℚ) :=
  if ballCount < colorCount * 2 then
    (some (errorMsg ballCount colorCount), [])
  else
    (none, (List.range ballCount).map fun i =>
      { color := palette.getD (i % colorCount) "undefined"
        x := (rand i).1 * (FIELD_WIDTH - BALL_SIZE)
        y := (rand i).2 * (FIELD_HEIGHT - BALL_SIZE)
        vx := 0
        vy := 0 })

/-- Index-based lookup into the batch (ball identity is its index). -/
def ballAt (balls : List (Ball ℚ)) (i : ℕ) : Ball ℚ :=
  balls.getD i ⟨0, 0, 0, 0, ""⟩

/-- Squared center-to-center distance: both traversals compute
`dx = a.x + BALL_SIZE / 2 - (b.x + BALL_SIZE / 2)` (likewise `dy`) and compare
`Math.hypot dx dy` with `GROUP_RADIUS`; we keep the squared form. -/
def centerDistSq (a b : Ball ℚ) : ℚ :=
  (a.x + BALL_SIZE / 2 - (b.x + BALL_SIZE / 2)) ^ 2 +
    (a.y + BALL_SIZE / 2 - (b.y + BALL_SIZE / 2)) ^ 2

/-- The adjacency test `Math.hypot dx dy <= GROUP_RADIUS` of both traversals,
in squared form (see `sqrt_le_iff_sq_le` for the equivalence). -/
def nearB (a b : Ball ℚ) : Bool :=
  decide (centerDistSq a b ≤ GROUP_RADIUS ^ 2)

/-- Adjacency between ball indices. -/
def nearIdx (balls : List (Ball ℚ)) (i j : ℕ) : Bool :=
  nearB (ballAt balls i) (ballAt balls j)

/-- Indices of the balls of color `c`, in batch order (the JS
`balls.filter((b) => b.color === ball.color)` / `groups[color]` lists, with
balls identified by index). -/
def colorIdx (balls : List (Ball ℚ)) (c : String) : List ℕ :=
  (List.range balls.length).filter fun i => decide ((ballAt balls i).color = c)

/-- One-color reachability traversal shared by `checkWin` and `getHighlight`:
a worklist `q` used as a stack (JS `queue.pop()` takes the last element, i.e.
the head of our list; `queue.push` during `forEach` puts the last-pushed
element on top, i.e. `pushed.reverse` goes in front), and a visited set.  Each
iteration pops `c`, adds it to `visited`, and pushes every group member not yet
visited that is adjacent to `c`.  The JS loop runs until the queue is empty;
here `fuel` bounds the iterations, and `travFuel` below is proved sufficient
for the queue to drain. -/
def trav (adj : ℕ → ℕ → Bool) (group : List ℕ) : ℕ → List ℕ → Finset ℕ → Finset ℕ
  | 0, _, vis => vis
  | _ + 1, [], vis => vis
  | fuel + 1, c :: rest, vis =>
    trav adj group fuel
      (((group.filter fun o => if o ∈ insert c vis then false else adj c o).reverse) ++ rest)
      (insert c vis)

/-- Fuel bound under which the worklist of `trav` provably drains. -/
def travFuel (g : ℕ) : ℕ := (2 * g + 1) * g + 1

/-- The per-color check of `checkWin`: seed the traversal at the group's first
member and test `visited.size === colorBalls.length`.  (The `[]` branch is
unreachable: `checkWin` only calls this for colors present in the batch.) -/
def groupConnected (balls : List (Ball ℚ)) (c : String) : Bool :=
  match colorIdx balls c with
  | [] => false
  | s :: rest =>
    decide ((trav (nearIdx balls) (s :: rest) (travFuel (s :: rest).length) [s] ∅).card
      = (s :: rest).length)

/-- The distinct colors present in the batch (the keys of the JS `groups`
object). -/
def colorsOf (balls : List (Ball ℚ)) : List String :=
  (balls.map fun b => b.color).dedup

/-- The cross-color proximity loop of `checkWin`: for every pair `i < j` of
differently colored balls, center distance `≤ GROUP_RADIUS` makes the
predicate false. -/
def crossPairOk (balls : List (Ball ℚ)) : Bool :=
  (List.range balls.length).all fun i =>
    (List.range balls.length).all fun j =>
      !(decide (i < j) && !(decide ((ballAt balls i).color = (ballAt balls j).color))
        && nearB (ballAt balls i) (ballAt balls j))

/-- Embedding of `checkWin`: false on the empty batch; otherwise every color
group must be fully visited by the traversal from its first member, and no
cross-color pair may be within `GROUP_RADIUS`. -/
def checkWin (balls : List (Ball ℚ)) : Bool :=
  if balls.isEmpty then false
  else (colorsOf balls).all (groupConnected balls) && crossPairOk balls

/-- Embedding of `getHighlight` for the ball at index `k`: false on the empty
batch or when fewer than two balls share `k`'s color; otherwise run the
traversal from the first ball of `k`'s color and report
`visited.has(ball) && visited.size > 1`. -/
def getHighlight (balls : List (Ball ℚ)) (k : ℕ) : Bool :=
  if balls.isEmpty then false
  else
    match colorIdx balls ((ballAt balls k).color) with
    | [] => false
    | s :: rest =>
      if (s :: rest).length < 2 then false
      else
        let visited :=
          trav (nearIdx balls) (s :: rest) (travFuel (s :: rest).length) [s] ∅
        decide (k ∈ visited) && decide (1 < visited.card)

/-- Reachability generated by a worklist traversal: steps go to a group member
whose adjacency test with the current node succeeds.  This is the abstract
reading of what `trav` computes. -/
def ReachIn (adj : ℕ → ℕ → Bool) (group : List ℕ) (s i : ℕ) : Prop :=
  Relation.ReflTransGen (fun a b => b ∈ group ∧ adj a b = true) s i

/-- Spec-side adjacency, following the claim wording: an edge joins two
same-color entities exactly when their center distance is at most
`GROUP_RADIUS`. -/
def specAdj (balls : List (Ball ℚ)) (i j : ℕ) : Prop :=
  i < balls.length ∧ j < balls.length ∧
    (ballAt balls i).color = (ballAt balls j).color ∧
    centerDistSq (ballAt balls i) (ballAt balls j) ≤ GROUP_RADIUS ^ 2

/-- Spec-side reachability between ball indices along same-color edges. -/
def SpecReach (balls : List (Ball ℚ)) (i j : ℕ) : Prop :=
  Relation.ReflTransGen (specAdj balls) i j

/-- Index of the first ball of color `c` in batch order (the traversal seed
`colorBalls[0]` / `sameColorBalls[0]`). -/
def firstOfColor (balls : List (Ball ℚ)) (c : String) : ℕ :=
  (colorIdx balls c).headD 0

/-- The win predicate as the claim words it: every ball is reached from the
first member of its color group along same-color edges within `GROUP_RADIUS`,
and no two differently colored balls are within `GROUP_RADIUS` of each other. -/
def specWin (balls : List (Ball ℚ)) : Prop :=
  (∀ i, i < balls.length →
      SpecReach balls (firstOfColor balls ((ballAt balls i).color)) i) ∧
  (∀ i j, i < balls.length → j < balls.length →
      (ballAt balls i).color ≠ (ballAt balls j).color →
      ¬ centerDistSq (ballAt balls i) (ballAt balls j) ≤ GROUP_RADIUS ^ 2)

/-- The highlight property as the claim words it: ball `k` belongs to some
same-color cluster of size at least 2, i.e. some other index is reachable from
`k` along same-color edges. -/
def specHighlight (balls : List (Ball ℚ)) (k : ℕ) : Prop :=
  ∃ j, j ≠ k ∧ SpecReach balls k j

/-- Characterisation of a `Math.hypot dx dy` value: nonnegative with the right
square.  For every `dx dy : ℝ` exactly one `d` satisfies this, so relations
built from it are deterministic. -/
def hypotRel (dx dy d : ℝ) : Prop := 0 ≤ d ∧ d ^ 2 = dx ^ 2 + dy ^ 2

/-- Cursor-repulsion phase for one ball (the `cursorRef.current && !isWin`
block of `animate`): with a cursor present and the session not won, if the
cursor-to-center distance `d` satisfies `0 < d < PUSH_RADIUS`, the velocity
gains the normalized cursor-to-center vector scaled by
`PUSH_FORCE * (PUSH_RADIUS - d) / PUSH_RADIUS`; otherwise (including `d = 0`
and absent cursor and won session) the ball is unchanged. -/
def cursorStep (won : Bool) (cursor : Option Position) (b b' : Ball ℝ) : Prop :=
  match cursor, won with
  | some c, false =>
    ∃ d, hypotRel (b.x + (BALL_SIZE : ℝ) / 2 - c.x) (b.y + (BALL_SIZE : ℝ) / 2 - c.y) d ∧
      ((d < (PUSH_RADIUS : ℝ) ∧ 0 < d ∧
          b' = { b with
            vx := b.vx + (b.x + (BALL_SIZE : ℝ) / 2 - c.x) / d * (PUSH_FORCE : ℝ)
              * (((PUSH_RADIUS : ℝ) - d) / (PUSH_RADIUS : ℝ))
            vy := b.vy + (b.y + (BALL_SIZE : ℝ) / 2 - c.y) / d * (PUSH_FORCE : ℝ)
              * (((PUSH_RADIUS : ℝ) - d) / (PUSH_RADIUS : ℝ)) }) ∨
        (¬ (d < (PUSH_RADIUS : ℝ) ∧ 0 < d) ∧ b' = b))
  | _, _ => b' = b

/-- One pairwise collision (the inner `for j` body of `animate`): with
center distance `d` in `(0, BALL_SIZE)`, both balls are pushed apart along the
collision normal by half the overlap each and receive opposite velocity
impulses of magnitude `0.3`; otherwise both are unchanged. -/
def collide (b o b' o' : Ball ℝ) : Prop :=
  ∃ d, hypotRel (b.x - o.x) (b.y - o.y) d ∧
    ((d < (BALL_SIZE : ℝ) ∧ 0 < d ∧
        b' = { b with
          x := b.x + (b.x - o.x) / d * ((BALL_SIZE : ℝ) - d) / 2
          y := b.y + (b.y - o.y) / d * ((BALL_SIZE : ℝ) - d) / 2
          vx := b.vx + (b.x - o.x) / d * 0.3
          vy := b.vy + (b.y - o.y) / d * 0.3 } ∧
        o' = { o with
          x := o.x - (b.x - o.x) / d * ((BALL_SIZE : ℝ) - d) / 2
          y := o.y - (b.y - o.y) / d * ((BALL_SIZE : ℝ) - d) / 2
          vx := o.vx - (b.x - o.x) / d * 0.3
          vy := o.vy - (b.y - o.y) / d * 0.3 }) ∨
      (¬ (d < (BALL_SIZE : ℝ) ∧ 0 < d) ∧ b' = b ∧ o' = o))

/-- Sequential collision pass of ball `b` against the later-indexed balls
`os`, in order, threading the in-place mutations of both sides. -/
def collideList : Ball ℝ → List (Ball ℝ) → Ball ℝ → List (Ball ℝ) → Prop
  | b, [], b', os' => b' = b ∧ os' = []
  | b, o :: rest, b', os' =>
    ∃ bm om, collide b o bm om ∧
      ∃ rest', collideList bm rest b' rest' ∧ os' = om :: rest'

/-- Boundary handling for one axis (`if (p < 0) ... if (p > M) ...` of
`animate`): positions beyond `[0, M]` are clamped to the violated bound and
the axis velocity is scaled by `-0.6`.  The two source `if`s run sequentially;
since they are only used with `M = FIELD_WIDTH - BALL_SIZE ≥ 0` resp.
`M = FIELD_HEIGHT - BALL_SIZE ≥ 0`, the first branch's result `0` never
re-triggers the second test, so the three cases below are exhaustive. -/
def bounceAxis (p v M p' v' : ℝ) : Prop :=
  (p < 0 ∧ p' = 0 ∧ v' = v * (-0.6)) ∨
  (¬ p < 0 ∧ M < p ∧ p' = M ∧ v' = v * (-0.6)) ∨
  (¬ p < 0 ∧ ¬ M < p ∧ p' = p ∧ v' = v)

/-- Integration tail of one ball's frame processing: `position += velocity`,
then `velocity *= FRICTION`, then the speed clamp on the damped velocity
(`speed = Math.hypot vx vy`; if `speed > MAX_SPEED` rescale to exactly
`MAX_SPEED`), then boundary handling on each axis. -/
def integrateStep (b b' : Ball ℝ) : Prop :=
  ∃ s, hypotRel (b.vx * (FRICTION : ℝ)) (b.vy * (FRICTION : ℝ)) s ∧
    ∃ vx2 vy2,
      (((MAX_SPEED : ℝ) < s ∧
          vx2 = b.vx * (FRICTION : ℝ) / s * (MAX_SPEED : ℝ) ∧
          vy2 = b.vy * (FRICTION : ℝ) / s * (MAX_SPEED : ℝ)) ∨
        (¬ (MAX_SPEED : ℝ) < s ∧
          vx2 = b.vx * (FRICTION : ℝ) ∧ vy2 = b.vy * (FRICTION : ℝ))) ∧
      bounceAxis (b.x + b.vx) vx2 ((FIELD_WIDTH : ℝ) - (BALL_SIZE : ℝ)) b'.x b'.vx ∧
      bounceAxis (b.y + b.vy) vy2 ((FIELD_HEIGHT : ℝ) - (BALL_SIZE : ℝ)) b'.y b'.vy ∧
      b'.color = b.color

/-- One full frame of the physics integrator (the `for i` loop of `animate`):
process the head ball (cursor force, collision pass against the tail —
which mutates tail balls in place — then integration), then recurse on the
mutated tail.  `stepList won cursor balls out` relates the batch before the
frame to the batch after it. -/
inductive stepList (won : Bool) (cursor : Option Position) :
    List (Ball ℝ) → List (Ball ℝ) → Prop
  | nil : stepList won cursor [] []
  | cons {b b1 b2 b3 : Ball ℝ} {rest rest1 rest' : List (Ball ℝ)} :
      cursorStep won cursor b b1 →
      collideList b1 rest b2 rest1 →
      integrateStep b2 b3 →
      stepList won cursor rest1 rest' →
      stepList won cursor (b :: rest) (b3 :: rest')

/-- Indicator used by the traversal termination potential: the top of the
worklist being already visited contributes `group.length`. -/
def potHead (group : List ℕ) (q : List ℕ) (vis : Finset ℕ) : ℕ :=
  match q with
  | [] => 0
  | c :: _ => if c ∈ vis then group.length else 0

/-- Termination potential of a traversal state: strictly decreases at every
iteration of `trav`, which proves the fuel `travFuel` sufficient. -/
def pot (group : List ℕ) (q : List ℕ) (vis : Finset ℕ) : ℕ :=
  (2 * group.length + 1) * (group.toFinset \ vis).card + q.length + potHead group q vis

/-- A one-ball batch at rest, used as the concrete step instance for the
C3/C6 witnesses. -/
def bOne : Ball ℝ := ⟨1, 2, 0, 0, "red"⟩

/-- A moving ball in a won session, before one frame. -/
def bRun : Ball ℝ := ⟨0, 0, 1, 0, "red"⟩

/-- The same ball after the won-state frame: it has moved and been damped. -/
def bRunStepped : Ball ℝ := ⟨1, 0, 0.97, 0, "red"⟩

/-- Concrete cursor for the C8 witness. -/
def cursorW : Position := ⟨256, 38⟩

/-- Concrete ball for the C8 witness: center `(310, 110)`, cursor distance
`90` (a 54-72-90 right triangle). -/
def ballW : Ball ℝ := ⟨300, 100, 0, 0, "red"⟩

/-- The C8 witness ball after the cursor phase: force scale
`2.5 * (150 - 90) / 150 = 1`, so the velocity gained is the unit vector
`(0.6, 0.8)`. -/
def ballWPushed : Ball ℝ := ⟨300, 100, 0.6, 0.8, "red"⟩

/-- First ball of the C7 counterexample: moving right at speed 6. -/
def cballA : Ball ℝ := ⟨100, 100, 6, 0, "red"⟩

/-- Second ball of the C7 counterexample: 10 units right of the first,
moving left at speed 6 (the pair overlaps by 10). -/
def cballB : Ball ℝ := ⟨110, 100, -6, 0, "blue"⟩

/-- First ball after the frame: separated to 95 by the push, then moved by
its damped velocity `5.7` to `100.7`. -/
def cballA2 : Ball ℝ := ⟨100.7, 100, 5.529, 0, "red"⟩

/-- Second ball after the frame: pushed to 115, then moved by `-5.7` to
`109.3` — the gap shrank from 10 to 8.6, so the overlap grew. -/
def cballB2 : Ball ℝ := ⟨109.3, 100, -5.529, 0, "blue"⟩

/-- First ball of the C7 witness: at rest, overlapping the second by 10. -/
def wballA : Ball ℝ := ⟨100, 100, 0, 0, "red"⟩

/-- Second ball of the C7 witness: at rest, 10 units right of the first. -/
def wballB : Ball ℝ := ⟨110, 100, 0, 0, "blue"⟩

/-- First ball of the C7 witness after the frame: pushed to 95 and moved by
the impulse `-0.3` to `94.7`. -/
def wballA2 : Ball ℝ := ⟨94.7, 100, -0.291, 0, "red"⟩

/-- Second ball of the C7 witness after the frame: pushed to 115 and moved
by `0.3` to `115.3` — the gap grew from 10 to 20.6. -/
def wballB2 : Ball ℝ := ⟨115.3, 100, 0.291, 0, "blue"⟩

/-- A one-ball batch, the concrete nonempty batch for the C1 witness. -/
def ballsOneRed : List (Ball ℚ) := [⟨0, 0, 0, 0, "red"⟩]

/-- A batch with one red ball far from a close red pair: ball 1 belongs to the
size-2 cluster `{1, 2}` but is unreachable from ball 0, the first red ball. -/
def ballsSplit : List (Ball ℚ) :=
  [⟨0, 0, 0, 0, "red"⟩, ⟨300, 0, 0, 0, "red"⟩, ⟨300, 5, 0, 0, "red"⟩]

/-- Every `Math.hypot` value exists: `hypotRel` is satisfied by the real
square root, so the step relations are never vacuous. -/
lemma hypotRel_sqrt (dx dy : ℝ) : hypotRel dx dy (Real.sqrt (dx ^ 2 + dy ^ 2)) :=
  ⟨Real.sqrt_nonneg _, Real.sq_sqrt (by positivity)⟩

/-- `hypotRel` determines its value uniquely, so the step relations are
deterministic. -/
lemma hypotRel_unique {dx dy d e : ℝ} (h1 : hypotRel dx dy d)
    (h2 : hypotRel dx dy e) : d = e := by
  obtain ⟨hd, hd2⟩ := h1
  obtain ⟨he, he2⟩ := h2
  apply le_antisymm <;> nlinarith

/-- Comparing a `Math.hypot` value with a nonnegative bound is the same as
comparing squares: this justifies the squared-distance encoding `nearB`. -/
lemma hypotRel_le_iff {dx dy d r : ℝ} (h : hypotRel dx dy d) (hr : 0 ≤ r) :
    d ≤ r ↔ dx ^ 2 + dy ^ 2 ≤ r ^ 2 := by
  obtain ⟨hd, hd2⟩ := h
  constructor <;> intro h' <;> nlinarith

/-- Strict version of `hypotRel_le_iff`. -/
lemma hypotRel_lt_iff {dx dy d r : ℝ} (h : hypotRel dx dy d) (hr : 0 ≤ r) :
    d < r ↔ dx ^ 2 + dy ^ 2 < r ^ 2 := by
  obtain ⟨hd, hd2⟩ := h
  constructor <;> intro h' <;> nlinarith

/-- A `Math.hypot` value is positive exactly when the squared distance is. -/
lemma hypotRel_pos_iff {dx dy d : ℝ} (h : hypotRel dx dy d) :
    0 < d ↔ 0 < dx ^ 2 + dy ^ 2 := by
  obtain ⟨hd, hd2⟩ := h
  constructor <;> intro h' <;> nlinarith

/-- The square-root form of the adjacency test agrees with the squared form
used in the `ℚ` embedding of the connectivity analyzer. -/
lemma sqrt_le_iff_sq_le (dx dy r : ℝ) (hr : 0 ≤ r) :
    Real.sqrt (dx ^ 2 + dy ^ 2) ≤ r ↔ dx ^ 2 + dy ^ 2 ≤ r ^ 2 := by
  have hx : (0 : ℝ) ≤ dx ^ 2 + dy ^ 2 := by positivity
  constructor
  · intro h
    have h2 := Real.sq_sqrt hx
    nlinarith [Real.sqrt_nonneg (dx ^ 2 + dy ^ 2)]
  · intro h
    have h2 : Real.sqrt (dx ^ 2 + dy ^ 2) ≤ Real.sqrt (r ^ 2) := Real.sqrt_le_sqrt h
    rwa [Real.sqrt_sq hr] at h2

/-- Unfolding of one `trav` iteration. -/
lemma trav_cons (adj : ℕ → ℕ → Bool) (group : List ℕ) (fuel : ℕ) (c : ℕ)
    (rest : List ℕ) (vis : Finset ℕ) :
    trav adj group (fuel + 1) (c :: rest) vis =
      trav adj group fuel
        (((group.filter fun o => if o ∈ insert c vis then false else adj c o).reverse) ++ rest)
        (insert c vis) := rfl

/-- `potHead` on a nonempty worklist. -/
lemma potHead_cons (group : List ℕ) (c : ℕ) (q : List ℕ) (vis : Finset ℕ) :
    potHead group (c :: q) vis = if c ∈ vis then group.length else 0 := rfl

/-- `potHead` is bounded by the group size. -/
lemma potHead_le (group q : List ℕ) (vis : Finset ℕ) :
    potHead group q vis ≤ group.length := by
  cases q with
  | nil => exact Nat.zero_le _
  | cons c rest =>
    rw [potHead_cons]
    split <;> omega

/-- Visiting a fresh group member shrinks the unvisited part by one. -/
lemma sdiff_card_insert {group : List ℕ} {vis : Finset ℕ} {c : ℕ}
    (hc : c ∈ group) (hcv : c ∉ vis) :
    (group.toFinset \ vis).card = (group.toFinset \ insert c vis).card + 1 := by
  have hsplit : group.toFinset \ vis = insert c (group.toFinset \ insert c vis) := by
    ext a
    simp only [Finset.mem_sdiff, Finset.mem_insert, List.mem_toFinset]
    constructor
    · rintro ⟨ha, hav⟩
      by_cases hac : a = c
      · exact Or.inl hac
      · exact Or.inr ⟨ha, by simp [hac, hav]⟩
    · rintro (hac | ⟨ha, hav⟩)
      · subst hac
        exact ⟨hc, hcv⟩
      · exact ⟨ha, fun h => hav (Or.inr h)⟩
  rw [hsplit, Finset.card_insert_of_not_mem]
  simp

/-- The potential strictly decreases across one `trav` iteration. -/
lemma pot_step (adj : ℕ → ℕ → Bool) (group : List ℕ) (c : ℕ) (rest : List ℕ)
    (vis : Finset ℕ) (hc : c ∈ group) :
    pot group
        (((group.filter fun o => if o ∈ insert c vis then false else adj c o).reverse) ++ rest)
        (insert c vis) < pot group (c :: rest) vis := by
  set pushed := group.filter fun o => if o ∈ insert c vis then false else adj c o with hpushed
  have hplen : pushed.length ≤ group.length := List.length_filter_le _ _
  have hind : potHead group (pushed.reverse ++ rest) (insert c vis) ≤ group.length :=
    potHead_le _ _ _
  have hind0 : pushed ≠ [] →
      potHead group (pushed.reverse ++ rest) (insert c vis) = 0 := by
    intro hne
    have hrne : pushed.reverse ≠ [] := by simpa using hne
    obtain ⟨x, xs, hx⟩ := List.exists_cons_of_ne_nil hrne
    have hxmem : x ∈ pushed := by
      rw [← List.mem_reverse, hx]
      exact List.mem_cons_self x xs
    have hxnv : x ∉ insert c vis := by
      have hfil := List.of_mem_filter hxmem
      intro hmem
      rw [if_pos hmem] at hfil
      exact Bool.false_ne_true hfil
    rw [hx, List.cons_append, potHead_cons, if_neg hxnv]
  simp only [pot, potHead_cons, List.length_append, List.length_reverse, List.length_cons]
  by_cases hcv : c ∈ vis
  · have hu : group.toFinset \ insert c vis = group.toFinset \ vis := by
      rw [Finset.insert_eq_self.mpr hcv]
    rw [hu, if_pos hcv]
    by_cases hne : pushed = []
    · rw [hne]
      simp only [List.length_nil, List.reverse_nil, List.nil_append]
      have h1 := potHead_le group rest (insert c vis)
      omega
    · rw [hind0 hne]
      omega
  · have hu := sdiff_card_insert hc hcv
    rw [if_neg hcv]
    have hmul : (2 * group.length + 1) * (group.toFinset \ vis).card =
        (2 * group.length + 1) * (group.toFinset \ insert c vis).card +
          (2 * group.length + 1) := by
      rw [hu]; ring
    rw [hmul]
    omega

/-- Main traversal invariants: given enough fuel (measured by `pot`), the
traversal result contains the visited set and the worklist, and — when every
already-visited node's neighbors are accounted for — is closed under
adjacency into the group. -/
lemma trav_spec (adj : ℕ → ℕ → Bool) (group : List ℕ) :
    ∀ fuel q vis, (∀ a ∈ q, a ∈ group) → pot group q vis ≤ fuel →
      (∀ a ∈ vis, a ∈ trav adj group fuel q vis) ∧
      (∀ a ∈ q, a ∈ trav adj group fuel q vis) ∧
      ((∀ a ∈ vis, ∀ b ∈ group, adj a b = true → b ∈ vis ∨ b ∈ q) →
        ∀ a ∈ trav adj group fuel q vis, ∀ b ∈ group, adj a b = true →
          b ∈ trav adj group fuel q vis) := by
  intro fuel
  induction fuel with
  | zero =>
    intro q vis hq hpot
    cases q with
    | nil =>
      refine ⟨fun a ha => ha, fun a ha => absurd ha (List.not_mem_nil a), ?_⟩
      intro hinv a ha b hb hadj
      rcases hinv a ha b hb hadj with h | h
      · exact h
      · exact absurd h (List.not_mem_nil b)
    | cons c rest =>
      exfalso
      simp only [pot, potHead_cons, List.length_cons] at hpot
      omega
  | succ fuel ih =>
    intro q vis hq hpot
    cases q with
    | nil =>
      refine ⟨fun a ha => ha, fun a ha => absurd ha (List.not_mem_nil a), ?_⟩
      intro hinv a ha b hb hadj
      rcases hinv a ha b hb hadj with h | h
      · exact h
      · exact absurd h (List.not_mem_nil b)
    | cons c rest =>
      rw [trav_cons]
      have hc : c ∈ group := hq c (List.mem_cons_self c rest)
      have hq' : ∀ a ∈ ((group.filter fun o =>
          if o ∈ insert c vis then false else adj c o).reverse) ++ rest, a ∈ group := by
        intro a ha
        rcases List.mem_append.mp ha with ha | ha
        · exact List.mem_of_mem_filter (List.mem_reverse.mp ha)
        · exact hq a (List.mem_cons_of_mem c ha)
      have hpot' : pot group
          (((group.filter fun o => if o ∈ insert c vis then false else adj c o).reverse)
            ++ rest) (insert c vis) ≤ fuel :=
        Nat.lt_succ_iff.mp (lt_of_lt_of_le (pot_step adj group c rest vis hc) hpot)
      obtain ⟨H1, H2, H3⟩ := ih _ (insert c vis) hq' hpot'
      refine ⟨?_, ?_, ?_⟩
      · intro a ha
        exact H1 a (Finset.mem_insert_of_mem ha)
      · intro a ha
        rcases List.mem_cons.mp ha with rfl | ha
        · exact H1 a (Finset.mem_insert_self a vis)
        · exact H2 a (List.mem_append_right _ ha)
      · intro hinv
        apply H3
        intro a ha b hb hadj
        rcases Finset.mem_insert.mp ha with rfl | ha
        · by_cases hbv : b ∈ insert a vis
          · exact Or.inl hbv
          · refine Or.inr (List.mem_append_left _ ?_)
            rw [List.mem_reverse]
            refine List.mem_filter.mpr ⟨hb, ?_⟩
            rw [if_neg hbv]
            exact hadj
        · rcases hinv a ha b hb hadj with h | h
          · exact Or.inl (Finset.mem_insert_of_mem h)
          · rcases List.mem_cons.mp h with rfl | h
            · exact Or.inl (Finset.mem_insert_self b vis)
            · exact Or.inr (List.mem_append_right _ h)

/-- Everything the traversal visits is reachable from the seeds. -/
lemma trav_sound (adj : ℕ → ℕ → Bool) (group : List ℕ) (s : ℕ) :
    ∀ fuel q vis, (∀ a ∈ q, ReachIn adj group s a) →
      (∀ a ∈ vis, ReachIn adj group s a) →
      ∀ a ∈ trav adj group fuel q vis, ReachIn adj group s a := by
  intro fuel
  induction fuel with
  | zero =>
    intro q vis hq hvis a ha
    cases q with
    | nil => exact hvis a ha
    | cons c rest => exact hvis a ha
  | succ fuel ih =>
    intro q vis hq hvis
    cases q with
    | nil => exact fun a ha => hvis a ha
    | cons c rest =>
      rw [trav_cons]
      apply ih
      · intro a ha
        rcases List.mem_append.mp ha with ha | ha
        · rw [List.mem_reverse] at ha
          have hfa := List.mem_filter.mp ha
          have hadj : adj c a = true := by
            by_cases hm : a ∈ insert c vis
            · rw [if_pos hm] at hfa
              exact absurd hfa.2 Bool.false_ne_true
            · rw [if_neg hm] at hfa
              exact hfa.2
          exact Relation.ReflTransGen.tail (hq c (List.mem_cons_self c rest))
            ⟨hfa.1, hadj⟩
        · exact hq a (List.mem_cons_of_mem c ha)
      · intro a ha
        rcases Finset.mem_insert.mp ha with rfl | ha
        · exact hq a (List.mem_cons_self a rest)
        · exact hvis a ha

/-- A node reachable from `s` is a group member or `s` itself. -/
lemma reachIn_mem {adj : ℕ → ℕ → Bool} {group : List ℕ} {s i : ℕ}
    (h : ReachIn adj group s i) : i ∈ group ∨ i = s := by
  induction h with
  | refl => exact Or.inr rfl
  | tail _ hedge _ => exact Or.inl hedge.1

/-- The traversal seeded at a group member computes exactly the set of nodes
reachable from it: the JS worklist loop terminates with the reachable set,
and `travFuel` fuel suffices. -/
lemma mem_trav_iff (adj : ℕ → ℕ → Bool) (group : List ℕ) (hnd : group.Nodup)
    (s : ℕ) (hs : s ∈ group) (i : ℕ) :
    i ∈ trav adj group (travFuel group.length) [s] ∅ ↔ ReachIn adj group s i := by
  constructor
  · intro h
    refine trav_sound adj group s _ [s] ∅ ?_ ?_ i h
    · intro a ha
      rcases List.mem_cons.mp ha with rfl | ha
      · exact Relation.ReflTransGen.refl
      · exact absurd ha (List.not_mem_nil a)
    · intro a ha
      exact absurd ha (Finset.not_mem_empty a)
  · intro h
    have hpot : pot group [s] ∅ ≤ travFuel group.length := by
      simp only [pot, potHead_cons, travFuel, List.length_cons, List.length_nil,
        Finset.sdiff_empty, Finset.not_mem_empty, if_false]
      rw [List.toFinset_card_of_nodup hnd]
    obtain ⟨H1, H2, H3⟩ := trav_spec adj group (travFuel group.length) [s] ∅
      (by
        intro a ha
        rcases List.mem_cons.mp ha with rfl | ha
        · exact hs
        · exact absurd ha (List.not_mem_nil a))
      hpot
    have hclosed := H3 (by
      intro a ha
      exact absurd ha (Finset.not_mem_empty a))
    have hsmem := H2 s (List.mem_cons_self s [])
    induction h with
    | refl => exact hsmem
    | tail _ hedge ihh => exact hclosed _ ihh _ hedge.1 hedge.2

/-- Membership in a color group. -/
lemma mem_colorIdx {balls : List (Ball ℚ)} {c : String} {i : ℕ} :
    i ∈ colorIdx balls c ↔ i < balls.length ∧ (ballAt balls i).color = c := by
  simp [colorIdx, List.mem_filter, List.mem_range]

/-- Color groups are duplicate-free index lists. -/
lemma colorIdx_nodup (balls : List (Ball ℚ)) (c : String) : (colorIdx balls c).Nodup :=
  List.Nodup.filter _ (List.nodup_range _)

/-- A valid index looks up an actual batch member. -/
lemma ballAt_mem {balls : List (Ball ℚ)} {i : ℕ} (h : i < balls.length) :
    ballAt balls i ∈ balls := by
  rw [ballAt, List.getD_eq_getElem?_getD, List.getElem?_eq_getElem h]
  exact List.getElem_mem _

/-- The squared center distance is symmetric. -/
lemma centerDistSq_comm (a b : Ball ℚ) : centerDistSq a b = centerDistSq b a := by
  simp only [centerDistSq]
  ring

/-- The traversal's reachability over a color group coincides with the
spec-side same-color reachability, for chains starting at a group member. -/
lemma reachIn_iff_specReach {balls : List (Ball ℚ)} {c : String} {s : ℕ}
    (hs : s ∈ colorIdx balls c) (i : ℕ) :
    ReachIn (nearIdx balls) (colorIdx balls c) s i ↔ SpecReach balls s i := by
  constructor
  · intro h
    induction h with
    | refl => exact Relation.ReflTransGen.refl
    | @tail u v hab hedge ih =>
      have hbmem : u ∈ colorIdx balls c := by
        rcases reachIn_mem hab with hm | hm
        · exact hm
        · rw [hm]; exact hs
      obtain ⟨hblt, hbc⟩ := mem_colorIdx.mp hbmem
      obtain ⟨hclt, hcc⟩ := mem_colorIdx.mp hedge.1
      have hnear : centerDistSq (ballAt balls u) (ballAt balls v) ≤ GROUP_RADIUS ^ 2 :=
        of_decide_eq_true hedge.2
      exact Relation.ReflTransGen.tail ih ⟨hblt, hclt, hbc.trans hcc.symm, hnear⟩
  · intro h
    suffices hsuf : ReachIn (nearIdx balls) (colorIdx balls c) s i ∧ i ∈ colorIdx balls c
      from hsuf.1
    induction h with
    | refl => exact ⟨Relation.ReflTransGen.refl, hs⟩
    | @tail u v hab hedge ih =>
      obtain ⟨hreach, hbmem⟩ := ih
      obtain ⟨hblt, hbc⟩ := mem_colorIdx.mp hbmem
      obtain ⟨_, hclt, hcol, hnear⟩ := hedge
      have hcmem : v ∈ colorIdx balls c := mem_colorIdx.mpr ⟨hclt, hcol ▸ hbc⟩
      exact ⟨Relation.ReflTransGen.tail hreach ⟨hcmem, decide_eq_true hnear⟩, hcmem⟩

/-- `groupConnected` unfolded on a color with a nonempty group. -/
lemma groupConnected_eq {balls : List (Ball ℚ)} {c : String} {s : ℕ} {rest : List ℕ}
    (hg : colorIdx balls c = s :: rest) :
    groupConnected balls c =
      decide ((trav (nearIdx balls) (s :: rest) (travFuel (s :: rest).length) [s] ∅).card
        = (s :: rest).length) := by
  unfold groupConnected
  rw [hg]

/-- The per-color `checkWin` test succeeds exactly when every group member is
reachable from the group's first member. -/
lemma groupConnected_iff {balls : List (Ball ℚ)} {c : String} {s : ℕ} {rest : List ℕ}
    (hg : colorIdx balls c = s :: rest) :
    groupConnected balls c = true ↔
      ∀ i ∈ colorIdx balls c, ReachIn (nearIdx balls) (colorIdx balls c) s i := by
  have hnd : (colorIdx balls c).Nodup := colorIdx_nodup balls c
  have hs : s ∈ colorIdx balls c := by
    rw [hg]; exact List.mem_cons_self s rest
  have hiff := mem_trav_iff (nearIdx balls) (colorIdx balls c) hnd s hs
  rw [groupConnected_eq hg, decide_eq_true_eq, ← hg]
  constructor
  · intro hcard i hi
    have hsub : trav (nearIdx balls) (colorIdx balls c)
        (travFuel (colorIdx balls c).length) [s] ∅ ⊆ (colorIdx balls c).toFinset := by
      intro a ha
      rcases reachIn_mem ((hiff a).mp ha) with hm | hm
      · exact List.mem_toFinset.mpr hm
      · rw [hm]; exact List.mem_toFinset.mpr hs
    have hle : (colorIdx balls c).toFinset.card ≤
        (trav (nearIdx balls) (colorIdx balls c)
          (travFuel (colorIdx balls c).length) [s] ∅).card := by
      rw [List.toFinset_card_of_nodup hnd, hcard]
    have heq := Finset.eq_of_subset_of_card_le hsub hle
    exact (hiff i).mp (by rw [heq]; exact List.mem_toFinset.mpr hi)
  · intro hreach
    have heq : trav (nearIdx balls) (colorIdx balls c)
        (travFuel (colorIdx balls c).length) [s] ∅ = (colorIdx balls c).toFinset := by
      apply Finset.Subset.antisymm
      · intro a ha
        rcases reachIn_mem ((hiff a).mp ha) with hm | hm
        · exact List.mem_toFinset.mpr hm
        · rw [hm]; exact List.mem_toFinset.mpr hs
      · intro a ha
        exact (hiff a).mpr (hreach a (List.mem_toFinset.mp ha))
    rw [heq, List.toFinset_card_of_nodup hnd]

/-- The cross-color pass of `checkWin` succeeds exactly when no two
differently colored balls are within `GROUP_RADIUS` of each other. -/
lemma crossPairOk_iff {balls : List (Ball ℚ)} :
    crossPairOk balls = true ↔
      ∀ i j, i < balls.length → j < balls.length →
        (ballAt balls i).color ≠ (ballAt balls j).color →
        ¬ centerDistSq (ballAt balls i) (ballAt balls j) ≤ GROUP_RADIUS ^ 2 := by
  simp only [crossPairOk, nearB, List.all_eq_true, List.mem_range, Bool.not_eq_true',
    Bool.and_eq_false_iff, decide_eq_false_iff_not, Bool.not_eq_false', decide_eq_true_eq]
  constructor
  · intro h i j hi hj hC
    rcases lt_trichotomy i j with hij | rfl | hij
    · rcases h i hi j hj with (hh | hh) | hh
      · exact absurd hij hh
      · exact absurd hh hC
      · exact hh
    · exact absurd rfl hC
    · rcases h j hj i hi with (hh | hh) | hh
      · exact absurd hij hh
      · exact absurd hh.symm hC
      · rw [centerDistSq_comm]
        exact hh
  · intro h i hi j hj
    by_cases hij : i < j
    · by_cases hC : (ballAt balls i).color = (ballAt balls j).color
      · exact Or.inl (Or.inr hC)
      · exact Or.inr (h i j hi hj hC)
    · exact Or.inl (Or.inl hij)

/-- Looking up a valid index is a plain `List.get`. -/
lemma ballAt_lt {balls : List (Ball ℚ)} {i : ℕ} (h : i < balls.length) :
    ballAt balls i = balls.get ⟨i, h⟩ := by
  rw [ballAt, List.getD_eq_getElem?_getD, List.getElem?_eq_getElem h]
  rfl

/-- C1 (amended): for every nonempty batch, the win predicate returns true
exactly under the claim's description — for every color group the traversal
seeded at the group's first member (edges: same color, center distance at
most `GROUP_RADIUS`) visits every member of that color, and no cross-color
pair is within `GROUP_RADIUS`.  (The amendment excludes only the empty batch,
where the code returns false although the description is vacuously true — see
`checkWin_empty_spec_mismatch`.) -/
theorem checkWin_iff_specWin (balls : List (Ball ℚ)) (hne : balls ≠ []) :
    checkWin balls = true ↔ specWin balls := by
  have hempty : balls.isEmpty = false := by
    cases balls with
    | nil => exact absurd rfl hne
    | cons b rest => rfl
  rw [checkWin, hempty]
  simp only [Bool.false_eq_true, if_false, Bool.and_eq_true, List.all_eq_true]
  constructor
  · rintro ⟨hall, hcross⟩
    refine ⟨?_, crossPairOk_iff.mp hcross⟩
    intro i hi
    have himem : i ∈ colorIdx balls ((ballAt balls i).color) :=
      mem_colorIdx.mpr ⟨hi, rfl⟩
    obtain ⟨s, rest, hg⟩ : ∃ s rest,
        colorIdx balls ((ballAt balls i).color) = s :: rest := by
      cases hcl : colorIdx balls ((ballAt balls i).color) with
      | nil => rw [hcl] at himem; exact absurd himem (List.not_mem_nil i)
      | cons s rest => exact ⟨s, rest, rfl⟩
    have hcmem : (ballAt balls i).color ∈ colorsOf balls := by
      simp only [colorsOf, List.mem_dedup, List.mem_map]
      exact ⟨ballAt balls i, ballAt_mem hi, rfl⟩
    have hreach := (groupConnected_iff hg).mp (hall _ hcmem) i himem
    have hsmem : s ∈ colorIdx balls ((ballAt balls i).color) := by
      rw [hg]; exact List.mem_cons_self s rest
    have hfirst : firstOfColor balls ((ballAt balls i).color) = s := by
      rw [firstOfColor, hg]; rfl
    rw [hfirst]
    exact (reachIn_iff_specReach hsmem i).mp hreach
  · rintro ⟨h1, h2⟩
    refine ⟨?_, crossPairOk_iff.mpr h2⟩
    intro c hcmem
    obtain ⟨b, hb, hbc⟩ : ∃ b ∈ balls, b.color = c := by
      simpa only [colorsOf, List.mem_dedup, List.mem_map] using hcmem
    obtain ⟨⟨i0, hi0⟩, hbeq⟩ := List.mem_iff_get.mp hb
    have hi0mem : i0 ∈ colorIdx balls c :=
      mem_colorIdx.mpr ⟨hi0, by rw [ballAt_lt hi0, hbeq, hbc]⟩
    obtain ⟨s, rest, hg⟩ : ∃ s rest, colorIdx balls c = s :: rest := by
      cases hcl : colorIdx balls c with
      | nil => rw [hcl] at hi0mem; exact absurd hi0mem (List.not_mem_nil i0)
      | cons s rest => exact ⟨s, rest, rfl⟩
    have hsmem : s ∈ colorIdx balls c := by
      rw [hg]; exact List.mem_cons_self s rest
    have hfirst : firstOfColor balls c = s := by
      rw [firstOfColor, hg]; rfl
    refine (groupConnected_iff hg).mpr ?_
    intro i hi
    obtain ⟨hilt, hicol⟩ := mem_colorIdx.mp hi
    have hspec := h1 i hilt
    rw [hicol, hfirst] at hspec
    exact (reachIn_iff_specReach hsmem i).mpr hspec

/-- C1 (counterexample): on the empty batch the claim's description is
vacuously true (there are no color groups and no cross-color pairs), yet the
win predicate returns false — so the claimed equivalence fails at the empty
batch. -/
theorem checkWin_empty_spec_mismatch :
    checkWin ([] : List (Ball ℚ)) = false ∧ specWin ([] : List (Ball ℚ)) := by
  refine ⟨rfl, ?_, ?_⟩
  · intro i hi
    simp at hi
  · intro i j hi hj
    simp at hi

/-- Witness for C1 (amended) at a concrete nonempty one-ball batch. -/
theorem checkWin_iff_specWin_witness :
    ballsOneRed ≠ [] ∧ (checkWin ballsOneRed = true ↔ specWin ballsOneRed) :=
  ⟨List.cons_ne_nil _ _, checkWin_iff_specWin ballsOneRed (List.cons_ne_nil _ _)⟩

/-- `getHighlight` unfolded on a nonempty batch with the ball's color group. -/
lemma getHighlight_eq {balls : List (Ball ℚ)} {k s : ℕ} {rest : List ℕ}
    (hempty : balls.isEmpty = false)
    (hg : colorIdx balls ((ballAt balls k).color) = s :: rest) :
    getHighlight balls k =
      if (s :: rest).length < 2 then false
      else
        decide (k ∈ trav (nearIdx balls) (s :: rest) (travFuel (s :: rest).length) [s] ∅)
          && decide (1 <
            (trav (nearIdx balls) (s :: rest) (travFuel (s :: rest).length) [s] ∅).card) := by
  unfold getHighlight
  rw [hempty, hg]
  rfl

/-- C5 (amended): a ball is highlighted exactly when it is reachable from the
first ball of its color group (the fixed traversal seed `sameColorBalls[0]`)
and that seed's cluster has size at least 2.  Membership in some other
same-color cluster of size ≥ 2 does not highlight a ball that the seed's
cluster misses — see `getHighlight_spec_mismatch`. -/
theorem getHighlight_iff_seed_component (balls : List (Ball ℚ)) (k : ℕ)
    (hk : k < balls.length) :
    getHighlight balls k = true ↔
      (SpecReach balls (firstOfColor balls ((ballAt balls k).color)) k ∧
        ∃ j, j ≠ firstOfColor balls ((ballAt balls k).color) ∧
          SpecReach balls (firstOfColor balls ((ballAt balls k).color)) j) := by
  have hempty : balls.isEmpty = false := by
    cases balls with
    | nil => simp at hk
    | cons b rest => rfl
  have hkmem : k ∈ colorIdx balls ((ballAt balls k).color) := mem_colorIdx.mpr ⟨hk, rfl⟩
  obtain ⟨s, rest, hg⟩ : ∃ s rest,
      colorIdx balls ((ballAt balls k).color) = s :: rest := by
    cases hcl : colorIdx balls ((ballAt balls k).color) with
    | nil => rw [hcl] at hkmem; exact absurd hkmem (List.not_mem_nil k)
    | cons s rest => exact ⟨s, rest, rfl⟩
  have hsmem : s ∈ colorIdx balls ((ballAt balls k).color) := by
    rw [hg]; exact List.mem_cons_self s rest
  have hfirst : firstOfColor balls ((ballAt balls k).color) = s := by
    rw [firstOfColor, hg]; rfl
  have hnd := colorIdx_nodup balls ((ballAt balls k).color)
  have hiff := mem_trav_iff (nearIdx balls) (colorIdx balls ((ballAt balls k).color))
    hnd s hsmem
  rw [getHighlight_eq hempty hg, hfirst, ← hg]
  by_cases hlen : (colorIdx balls ((ballAt balls k).color)).length < 2
  · rw [if_pos hlen]
    simp only [Bool.false_eq_true, false_iff]
    rintro ⟨hreachk, j, hjne, hjreach⟩
    have hone : colorIdx balls ((ballAt balls k).color) = [s] := by
      rw [hg] at hlen ⊢
      cases rest with
      | nil => rfl
      | cons r rs =>
        simp only [List.length_cons] at hlen
        exact absurd hlen (by omega)
    have hjr := (reachIn_iff_specReach hsmem j).mpr hjreach
    rcases reachIn_mem hjr with hm | hm
    · rw [hone] at hm
      exact hjne (by simpa using hm)
    · exact hjne hm
  · rw [if_neg hlen, Bool.and_eq_true, decide_eq_true_eq, decide_eq_true_eq]
    constructor
    · rintro ⟨hkT, hcard⟩
      refine ⟨(reachIn_iff_specReach hsmem k).mp ((hiff k).mp hkT), ?_⟩
      obtain ⟨a, haT, b, hbT, hab⟩ := Finset.one_lt_card.mp hcard
      by_cases has : a = s
      · refine ⟨b, ?_, (reachIn_iff_specReach hsmem b).mp ((hiff b).mp hbT)⟩
        rw [← has]
        exact fun h => hab h.symm
      · exact ⟨a, has, (reachIn_iff_specReach hsmem a).mp ((hiff a).mp haT)⟩
    · rintro ⟨hreachk, j, hjne, hjreach⟩
      refine ⟨(hiff k).mpr ((reachIn_iff_specReach hsmem k).mpr hreachk), ?_⟩
      have hjT := (hiff j).mpr ((reachIn_iff_specReach hsmem j).mpr hjreach)
      have hsT := (hiff s).mpr Relation.ReflTransGen.refl
      exact Finset.one_lt_card.mpr ⟨j, hjT, s, hsT, hjne⟩

/-- The balls of `ballsSplit`, by index. -/
lemma ballsSplit_at_0 : ballAt ballsSplit 0 = ⟨0, 0, 0, 0, "red"⟩ := rfl

/-- The balls of `ballsSplit`, by index (ball 1). -/
lemma ballsSplit_at_1 : ballAt ballsSplit 1 = ⟨300, 0, 0, 0, "red"⟩ := rfl

/-- The balls of `ballsSplit`, by index (ball 2). -/
lemma ballsSplit_at_2 : ballAt ballsSplit 2 = ⟨300, 5, 0, 0, "red"⟩ := rfl

/-- The red color group of `ballsSplit` is all three indices. -/
lemma colorIdx_ballsSplit :
    colorIdx ballsSplit ((ballAt ballsSplit 1).color) = [0, 1, 2] := rfl

/-- Ball 0 of `ballsSplit` is not adjacent to ball 1 (distance 300). -/
lemma nearIdx_ballsSplit_01 : nearIdx ballsSplit 0 1 = false := by
  simp only [nearIdx, nearB, ballsSplit_at_0, ballsSplit_at_1]
  rw [decide_eq_false_iff_not]
  simp only [centerDistSq, BALL_SIZE, GROUP_RADIUS]
  norm_num

/-- Ball 0 of `ballsSplit` is not adjacent to ball 2. -/
lemma nearIdx_ballsSplit_02 : nearIdx ballsSplit 0 2 = false := by
  simp only [nearIdx, nearB, ballsSplit_at_0, ballsSplit_at_2]
  rw [decide_eq_false_iff_not]
  simp only [centerDistSq, BALL_SIZE, GROUP_RADIUS]
  norm_num

/-- The traversal of `ballsSplit`'s red group seeded at ball 0 visits only
ball 0. -/
lemma trav_ballsSplit :
    trav (nearIdx ballsSplit) [0, 1, 2] (travFuel ([0, 1, 2] : List ℕ).length) [0] ∅
      = {0} := by
  have hfuel : travFuel ([0, 1, 2] : List ℕ).length = 21 + 1 := by
    norm_num [travFuel]
  rw [hfuel, trav_cons]
  have hfil : (([0, 1, 2] : List ℕ).filter fun o =>
      if o ∈ insert 0 (∅ : Finset ℕ) then false else nearIdx ballsSplit 0 o) = [] := by
    have h0 : (if (0 : ℕ) ∈ insert 0 (∅ : Finset ℕ) then false
        else nearIdx ballsSplit 0 0) = false := if_pos (Finset.mem_insert_self 0 ∅)
    have h1 : (if (1 : ℕ) ∈ insert 0 (∅ : Finset ℕ) then false
        else nearIdx ballsSplit 0 1) = false := by
      rw [if_neg (by simp), nearIdx_ballsSplit_01]
    have h2 : (if (2 : ℕ) ∈ insert 0 (∅ : Finset ℕ) then false
        else nearIdx ballsSplit 0 2) = false := by
      rw [if_neg (by simp), nearIdx_ballsSplit_02]
    simp only [List.filter_cons, h0, h1, h2, List.filter_nil, Bool.false_eq_true, if_false]
  rw [hfil]
  rfl

/-- C5 (counterexample): in `ballsSplit`, ball 1 belongs to the same-color
cluster `{1, 2}` of size 2 (distance 5 ≤ GROUP_RADIUS), yet `getHighlight`
reports false for it because the traversal is seeded at ball 0 — the first
red ball — whose cluster does not contain ball 1.  Highlighting therefore
does depend on which member serves as the traversal seed, contrary to the
claim. -/
theorem getHighlight_spec_mismatch :
    getHighlight ballsSplit 1 = false ∧ specHighlight ballsSplit 1 := by
  constructor
  · rw [getHighlight_eq (show ballsSplit.isEmpty = false from rfl) colorIdx_ballsSplit]
    rw [if_neg (by norm_num)]
    rw [trav_ballsSplit]
    simp
  · refine ⟨2, by norm_num, Relation.ReflTransGen.single ?_⟩
    refine ⟨by norm_num [ballsSplit], by norm_num [ballsSplit], ?_, ?_⟩
    · rw [ballsSplit_at_1, ballsSplit_at_2]
    · simp only [ballsSplit_at_1, ballsSplit_at_2, centerDistSq, BALL_SIZE, GROUP_RADIUS]
      norm_num

/-- Witness for C5 (amended) at the ball of index 1 of the concrete split
batch. -/
theorem getHighlight_iff_seed_component_witness :
    getHighlight ballsSplit 1 = true ↔
      (SpecReach ballsSplit (firstOfColor ballsSplit ((ballAt ballsSplit 1).color)) 1 ∧
        ∃ j, j ≠ firstOfColor ballsSplit ((ballAt ballsSplit 1).color) ∧
          SpecReach ballsSplit (firstOfColor ballsSplit ((ballAt ballsSplit 1).color)) j) :=
  getHighlight_iff_seed_component ballsSplit 1 (by norm_num [ballsSplit])

/-- Boundary handling leaves the axis position inside `[0, M]`. -/
lemma bounceAxis_bounds {p v M p' v' : ℝ} (hM : 0 ≤ M)
    (h : bounceAxis p v M p' v') : 0 ≤ p' ∧ p' ≤ M := by
  rcases h with ⟨_, hp, _⟩ | ⟨_, _, hp, _⟩ | ⟨h1, h2, hp, _⟩ <;> subst hp <;>
    constructor <;> linarith

/-- Boundary handling never increases the squared axis velocity (the `-0.6`
rescale shrinks it). -/
lemma bounceAxis_speed {p v M p' v' : ℝ} (h : bounceAxis p v M p' v') :
    v' ^ 2 ≤ v ^ 2 := by
  rcases h with ⟨_, _, hv⟩ | ⟨_, _, _, hv⟩ | ⟨_, _, _, hv⟩ <;> rw [hv] <;>
    nlinarith [sq_nonneg v]

/-- The arena bound constants are nonnegative. -/
lemma fieldX_nonneg : (0 : ℝ) ≤ (FIELD_WIDTH : ℝ) - (BALL_SIZE : ℝ) := by
  simp only [FIELD_WIDTH, BALL_SIZE]
  norm_num

/-- The arena bound constants are nonnegative (y axis). -/
lemma fieldY_nonneg : (0 : ℝ) ≤ (FIELD_HEIGHT : ℝ) - (BALL_SIZE : ℝ) := by
  simp only [FIELD_HEIGHT, BALL_SIZE]
  norm_num

/-- After the integration tail of a frame, the ball is inside the arena. -/
lemma integrateStep_bounds {b b' : Ball ℝ} (h : integrateStep b b') :
    0 ≤ b'.x ∧ b'.x ≤ (FIELD_WIDTH : ℝ) - (BALL_SIZE : ℝ) ∧
      0 ≤ b'.y ∧ b'.y ≤ (FIELD_HEIGHT : ℝ) - (BALL_SIZE : ℝ) := by
  obtain ⟨s, _, vx2, vy2, _, hbx, hby, _⟩ := h
  obtain ⟨hx0, hx1⟩ := bounceAxis_bounds fieldX_nonneg hbx
  obtain ⟨hy0, hy1⟩ := bounceAxis_bounds fieldY_nonneg hby
  exact ⟨hx0, hx1, hy0, hy1⟩

/-- After the integration tail of a frame, the squared speed is at most
`MAX_SPEED ^ 2`: the clamp rescales a too-fast velocity to exactly
`MAX_SPEED`, and the bounce only shrinks components. -/
lemma integrateStep_speed {b b' : Ball ℝ} (h : integrateStep b b') :
    b'.vx ^ 2 + b'.vy ^ 2 ≤ (MAX_SPEED : ℝ) ^ 2 := by
  obtain ⟨s, ⟨hs0, hs2⟩, vx2, vy2, hv, hbx, hby, _⟩ := h
  have hM : (0 : ℝ) < (MAX_SPEED : ℝ) := by
    simp only [MAX_SPEED]; norm_num
  have hmid : vx2 ^ 2 + vy2 ^ 2 ≤ (MAX_SPEED : ℝ) ^ 2 := by
    rcases hv with ⟨hfast, h1, h2⟩ | ⟨hslow, h1, h2⟩
    · have hs : s ≠ 0 := by intro h0; rw [h0] at hfast; linarith
      have h3 : vx2 * s = b.vx * (FRICTION : ℝ) * (MAX_SPEED : ℝ) := by
        rw [h1]; field_simp
      have h4 : vy2 * s = b.vy * (FRICTION : ℝ) * (MAX_SPEED : ℝ) := by
        rw [h2]; field_simp
      have h5 : (vx2 ^ 2 + vy2 ^ 2) * s ^ 2 = (MAX_SPEED : ℝ) ^ 2 * s ^ 2 := by
        linear_combination (vx2 * s + b.vx * (FRICTION : ℝ) * (MAX_SPEED : ℝ)) * h3 +
          (vy2 * s + b.vy * (FRICTION : ℝ) * (MAX_SPEED : ℝ)) * h4 -
          (MAX_SPEED : ℝ) ^ 2 * hs2
      have h6 := mul_right_cancel₀ (pow_ne_zero 2 hs) h5
      linarith [h6.le]
    · subst h1; subst h2
      nlinarith
  have h1 := bounceAxis_speed hbx
  have h2 := bounceAxis_speed hby
  linarith

/-- C9: the win predicate is false on the empty entity batch. -/
theorem checkWin_empty : checkWin ([] : List (Ball ℚ)) = false := rfl

/-- C3: after one full integrator step — for every input batch, cursor and
won-flag, and whatever order the collision pushes happened in during the
pass — every output entity's position satisfies
`0 ≤ x ≤ FIELD_WIDTH - BALL_SIZE` and `0 ≤ y ≤ FIELD_HEIGHT - BALL_SIZE`:
each entity's own iteration ends with the boundary clamp, and later
iterations only touch later-indexed entities, so nothing can leave the
arena at the end of the step.  Iterating the step keeps the invariant. -/
theorem stepList_bounds (won : Bool) (cursor : Option Position)
    (balls out : List (Ball ℝ)) (h : stepList won cursor balls out) :
    ∀ b ∈ out, 0 ≤ b.x ∧ b.x ≤ (FIELD_WIDTH : ℝ) - (BALL_SIZE : ℝ) ∧
      0 ≤ b.y ∧ b.y ≤ (FIELD_HEIGHT : ℝ) - (BALL_SIZE : ℝ) := by
  induction h with
  | nil => intro b hb; cases hb
  | cons hcur hcol hint _ ih =>
    intro b hb
    rcases List.mem_cons.mp hb with hb | hb
    · subst hb; exact integrateStep_bounds hint
    · exact ih b hb

/-- C6: after one full integrator step, every output entity's velocity
magnitude is at most `MAX_SPEED` (stated on squares: `vx² + vy² ≤ MAX_SPEED²`,
which for nonnegative magnitudes is the same bound). -/
theorem stepList_speed (won : Bool) (cursor : Option Position)
    (balls out : List (Ball ℝ)) (h : stepList won cursor balls out) :
    ∀ b ∈ out, b.vx ^ 2 + b.vy ^ 2 ≤ (MAX_SPEED : ℝ) ^ 2 := by
  induction h with
  | nil => intro b hb; cases hb
  | cons hcur hcol hint _ ih =>
    intro b hb
    rcases List.mem_cons.mp hb with hb | hb
    · subst hb; exact integrateStep_speed hint
    · exact ih b hb

/-- The concrete frame: a single resting ball is unchanged by one step. -/
lemma stepOne : stepList false none [bOne] [bOne] := by
  have h1 : cursorStep false none bOne bOne := rfl
  have h2 : collideList bOne [] bOne [] := ⟨rfl, rfl⟩
  have h3 : integrateStep bOne bOne := by
    refine ⟨0, ⟨le_refl 0, ?_⟩, 0, 0, Or.inr ⟨?_, ?_, ?_⟩, ?_, ?_, rfl⟩
    · norm_num [bOne]
    · simp only [MAX_SPEED]; norm_num
    · norm_num [bOne]
    · norm_num [bOne]
    · refine Or.inr (Or.inr ⟨?_, ?_, ?_, ?_⟩) <;>
        simp only [bOne, FIELD_WIDTH, BALL_SIZE] <;> push_cast <;> norm_num
    · refine Or.inr (Or.inr ⟨?_, ?_, ?_, ?_⟩) <;>
        simp only [bOne, FIELD_HEIGHT, BALL_SIZE] <;> push_cast <;> norm_num
  exact stepList.cons h1 h2 h3 stepList.nil

/-- Witness for C3 at the concrete one-ball step. -/
theorem stepList_bounds_witness :
    0 ≤ bOne.x ∧ bOne.x ≤ (FIELD_WIDTH : ℝ) - (BALL_SIZE : ℝ) ∧
      0 ≤ bOne.y ∧ bOne.y ≤ (FIELD_HEIGHT : ℝ) - (BALL_SIZE : ℝ) :=
  stepList_bounds false none [bOne] [bOne] stepOne bOne (List.mem_cons_self bOne [])

/-- Witness for C6 at the concrete one-ball step. -/
theorem stepList_speed_witness :
    bOne.vx ^ 2 + bOne.vy ^ 2 ≤ (MAX_SPEED : ℝ) ^ 2 :=
  stepList_speed false none [bOne] [bOne] stepOne bOne (List.mem_cons_self bOne [])

/-- With the won flag set, the cursor branch is skipped for any cursor. -/
lemma cursorStep_won (cursor : Option Position) (b b' : Ball ℝ) :
    cursorStep true cursor b b' ↔ b' = b := by
  cases cursor <;> exact Iff.rfl

/-- A won-state frame is insensitive to the cursor (one direction of the
cursor-irrelevance equivalence). -/
lemma stepList_won_any {cursor cursor' : Option Position}
    {balls out : List (Ball ℝ)} (h : stepList true cursor balls out) :
    stepList true cursor' balls out := by
  induction h with
  | nil => exact stepList.nil
  | cons hcur hcol hint _ ih =>
    exact stepList.cons ((cursorStep_won _ _ _).mpr ((cursorStep_won _ _ _).mp hcur))
      hcol hint ih

/-- C2 (amended): when the won flag is true, cursor-force application is
suspended — the frame relates the same batches whatever the cursor is — but
the rest of the integrator (collisions, integration, friction, clamping,
boundary handling) still executes; see `step_won_moves_ball` for a won-state
frame that moves a ball. -/
theorem stepList_won_cursor_irrelevant (cursor : Option Position)
    (balls out : List (Ball ℝ)) :
    stepList true cursor balls out ↔ stepList true none balls out :=
  ⟨fun h => stepList_won_any h, fun h => stepList_won_any h⟩

/-- C2 (counterexample): in a won session (won flag true, cursor cleared), one
frame moves a ball with nonzero velocity and rescales its velocity — the
claim that every entity's position and velocity are unchanged is false. -/
theorem step_won_moves_ball :
    stepList true none [bRun] [bRunStepped] ∧
      bRunStepped.x ≠ bRun.x ∧ bRunStepped.vx ≠ bRun.vx := by
  refine ⟨?_, ?_, ?_⟩
  · have h1 : cursorStep true none bRun bRun := rfl
    have h2 : collideList bRun [] bRun [] := ⟨rfl, rfl⟩
    have h3 : integrateStep bRun bRunStepped := by
      refine ⟨0.97, ⟨by norm_num, ?_⟩, 0.97, 0, Or.inr ⟨?_, ?_, ?_⟩, ?_, ?_, rfl⟩
      · simp only [bRun, FRICTION]; push_cast; norm_num
      · simp only [MAX_SPEED]; push_cast; norm_num
      · simp only [bRun, FRICTION]; push_cast; norm_num
      · simp only [bRun, FRICTION]; push_cast; norm_num
      · refine Or.inr (Or.inr ⟨?_, ?_, ?_, ?_⟩) <;>
          simp only [bRun, bRunStepped, FIELD_WIDTH, BALL_SIZE] <;> push_cast <;> norm_num
      · refine Or.inr (Or.inr ⟨?_, ?_, ?_, ?_⟩) <;>
          simp only [bRun, bRunStepped, FIELD_HEIGHT, BALL_SIZE] <;> push_cast <;> norm_num
    exact stepList.cons h1 h2 h3 stepList.nil
  · simp only [bRun, bRunStepped]; norm_num
  · simp only [bRun, bRunStepped]; norm_num

/-- C8: for a running session with a present cursor, the cursor phase adds to
the ball's velocity exactly the unit vector from cursor to ball center scaled
by `PUSH_FORCE * (PUSH_RADIUS - d) / PUSH_RADIUS`, when the center distance
`d` satisfies `0 < d < PUSH_RADIUS` (stated via squared distances); at `d = 0`
or `d ≥ PUSH_RADIUS` the ball is untouched, and positions never change in
this phase. -/
theorem cursorStep_force_spec (c : Position) (b b' : Ball ℝ)
    (h : cursorStep false (some c) b b') :
    (b.x + (BALL_SIZE : ℝ) / 2 - c.x = 0 ∧ b.y + (BALL_SIZE : ℝ) / 2 - c.y = 0 →
      b' = b) ∧
    ((PUSH_RADIUS : ℝ) ^ 2 ≤ (b.x + (BALL_SIZE : ℝ) / 2 - c.x) ^ 2 +
        (b.y + (BALL_SIZE : ℝ) / 2 - c.y) ^ 2 → b' = b) ∧
    (0 < (b.x + (BALL_SIZE : ℝ) / 2 - c.x) ^ 2 + (b.y + (BALL_SIZE : ℝ) / 2 - c.y) ^ 2 ∧
      (b.x + (BALL_SIZE : ℝ) / 2 - c.x) ^ 2 + (b.y + (BALL_SIZE : ℝ) / 2 - c.y) ^ 2 <
        (PUSH_RADIUS : ℝ) ^ 2 →
      ∃ d, 0 < d ∧
        d ^ 2 = (b.x + (BALL_SIZE : ℝ) / 2 - c.x) ^ 2 +
          (b.y + (BALL_SIZE : ℝ) / 2 - c.y) ^ 2 ∧
        b'.x = b.x ∧ b'.y = b.y ∧ b'.color = b.color ∧
        b'.vx = b.vx + (b.x + (BALL_SIZE : ℝ) / 2 - c.x) / d * (PUSH_FORCE : ℝ)
          * (((PUSH_RADIUS : ℝ) - d) / (PUSH_RADIUS : ℝ)) ∧
        b'.vy = b.vy + (b.y + (BALL_SIZE : ℝ) / 2 - c.y) / d * (PUSH_FORCE : ℝ)
          * (((PUSH_RADIUS : ℝ) - d) / (PUSH_RADIUS : ℝ))) := by
  obtain ⟨d, hd, hbr⟩ := h
  have hP : (0 : ℝ) ≤ (PUSH_RADIUS : ℝ) := by
    simp only [PUSH_RADIUS]; norm_num
  refine ⟨?_, ?_, ?_⟩
  · rintro ⟨hx, hy⟩
    have hd0 : ¬ 0 < d := by
      rw [hypotRel_pos_iff hd, hx, hy]; norm_num
    rcases hbr with ⟨_, hpos, _⟩ | ⟨_, hb⟩
    · exact absurd hpos hd0
    · exact hb
  · intro hfar
    have hdge : ¬ d < (PUSH_RADIUS : ℝ) := by
      rw [hypotRel_lt_iff hd hP]; linarith
    rcases hbr with ⟨hlt, _, _⟩ | ⟨_, hb⟩
    · exact absurd hlt hdge
    · exact hb
  · rintro ⟨hpos, hlt⟩
    have hd0 : 0 < d := (hypotRel_pos_iff hd).mpr hpos
    have hdlt : d < (PUSH_RADIUS : ℝ) := (hypotRel_lt_iff hd hP).mpr hlt
    rcases hbr with ⟨_, _, hb⟩ | ⟨hng, _⟩
    · subst hb
      exact ⟨d, hd0, hd.2, rfl, rfl, rfl, rfl, rfl⟩
    · exact absurd ⟨hdlt, hd0⟩ hng

/-- The concrete cursor phase for the C8 witness. -/
lemma cursorStepW : cursorStep false (some cursorW) ballW ballWPushed := by
  refine ⟨90, ⟨by norm_num, ?_⟩, Or.inl ⟨?_, by norm_num, ?_⟩⟩
  · simp only [ballW, cursorW, BALL_SIZE]; push_cast; norm_num
  · simp only [PUSH_RADIUS]; push_cast; norm_num
  · simp only [ballW, ballWPushed, cursorW, BALL_SIZE, PUSH_RADIUS, PUSH_FORCE,
      Ball.mk.injEq]
    push_cast
    norm_num

/-- Witness for C8 at the concrete cursor/ball configuration. -/
theorem cursorStep_force_spec_witness :
    (ballW.x + (BALL_SIZE : ℝ) / 2 - cursorW.x = 0 ∧
        ballW.y + (BALL_SIZE : ℝ) / 2 - cursorW.y = 0 → ballWPushed = ballW) ∧
    ((PUSH_RADIUS : ℝ) ^ 2 ≤ (ballW.x + (BALL_SIZE : ℝ) / 2 - cursorW.x) ^ 2 +
        (ballW.y + (BALL_SIZE : ℝ) / 2 - cursorW.y) ^ 2 → ballWPushed = ballW) ∧
    (0 < (ballW.x + (BALL_SIZE : ℝ) / 2 - cursorW.x) ^ 2 +
        (ballW.y + (BALL_SIZE : ℝ) / 2 - cursorW.y) ^ 2 ∧
      (ballW.x + (BALL_SIZE : ℝ) / 2 - cursorW.x) ^ 2 +
        (ballW.y + (BALL_SIZE : ℝ) / 2 - cursorW.y) ^ 2 < (PUSH_RADIUS : ℝ) ^ 2 →
      ∃ d, 0 < d ∧
        d ^ 2 = (ballW.x + (BALL_SIZE : ℝ) / 2 - cursorW.x) ^ 2 +
          (ballW.y + (BALL_SIZE : ℝ) / 2 - cursorW.y) ^ 2 ∧
        ballWPushed.x = ballW.x ∧ ballWPushed.y = ballW.y ∧
        ballWPushed.color = ballW.color ∧
        ballWPushed.vx = ballW.vx + (ballW.x + (BALL_SIZE : ℝ) / 2 - cursorW.x) / d
          * (PUSH_FORCE : ℝ) * (((PUSH_RADIUS : ℝ) - d) / (PUSH_RADIUS : ℝ)) ∧
        ballWPushed.vy = ballW.vy + (ballW.y + (BALL_SIZE : ℝ) / 2 - cursorW.y) / d
          * (PUSH_FORCE : ℝ) * (((PUSH_RADIUS : ℝ) - d) / (PUSH_RADIUS : ℝ))) :=
  cursorStep_force_spec cursorW ballW ballWPushed cursorStepW

/-- Entry `i` of the generated batch, for `i < ballCount`. -/
lemma generateBalls_getD (ballCount colorCount : ℕ) (rand : ℕ → ℚ × ℚ)
    (hok : ¬ ballCount < colorCount * 2) {i : ℕ} (hi : i < ballCount) :
    (generateBalls ballCount colorCount rand).2.getD i ⟨0, 0, 0, 0, ""⟩ =
      { color := palette.getD (i % colorCount) "undefined"
        x := (rand i).1 * (FIELD_WIDTH - BALL_SIZE)
        y := (rand i).2 * (FIELD_HEIGHT - BALL_SIZE)
        vx := 0
        vy := 0 } := by
  simp only [generateBalls, if_neg hok]
  rw [List.getD_eq_getElem?_getD, List.getElem?_map, List.getElem?_range hi]
  rfl

/-- A palette entry with index below `colorCount ≤ 6` is one of the first
`colorCount` palette colors. -/
lemma palette_getD_mem_take {j c : ℕ} (hj : j < c) (hc : c ≤ 6) :
    palette.getD j "undefined" ∈ palette.take c := by
  have hj6 : j < palette.length := by
    simp only [palette, List.length_cons, List.length_nil]
    omega
  have hjt : j < (palette.take c).length := by
    simp only [List.length_take]
    omega
  have he : (palette.take c).get ⟨j, hjt⟩ = palette.getD j "undefined" := by
    rw [List.getD_eq_getElem?_getD]
    simp [List.getElem_take, hj6]
  rw [← he]
  exact List.get_mem _ _ _

/-- C4: `generateBalls` yields the descriptive validation error and the empty
batch exactly when `ballCount < colorCount * 2`; otherwise it clears the
error and yields `ballCount` balls, ball `i` colored cyclically by
`palette[i % colorCount]` — one of the first `colorCount` palette colors —
with zero velocity.  The hypotheses `1 ≤ colorCount ≤ 6` are the
configuration preconditions stated by the spec (palette size 6, UI minimum
2). -/
theorem generateBalls_spec (ballCount colorCount : ℕ) (rand : ℕ → ℚ × ℚ)
    (h1 : 1 ≤ colorCount) (h2 : colorCount ≤ 6) :
    (ballCount < colorCount * 2 →
      generateBalls ballCount colorCount rand =
        (some (errorMsg ballCount colorCount), [])) ∧
    (¬ ballCount < colorCount * 2 →
      (generateBalls ballCount colorCount rand).1 = none ∧
      (generateBalls ballCount colorCount rand).2.length = ballCount ∧
      ∀ i, i < ballCount →
        ((generateBalls ballCount colorCount rand).2.getD i ⟨0, 0, 0, 0, ""⟩).color =
            palette.getD (i % colorCount) "undefined" ∧
          ((generateBalls ballCount colorCount rand).2.getD i ⟨0, 0, 0, 0, ""⟩).color ∈
            palette.take colorCount ∧
          ((generateBalls ballCount colorCount rand).2.getD i ⟨0, 0, 0, 0, ""⟩).vx = 0 ∧
          ((generateBalls ballCount colorCount rand).2.getD i ⟨0, 0, 0, 0, ""⟩).vy = 0) := by
  constructor
  · intro hbad
    simp only [generateBalls, if_pos hbad]
  · intro hok
    refine ⟨?_, ?_, ?_⟩
    · simp only [generateBalls, if_neg hok]
    · simp only [generateBalls, if_neg hok, List.length_map, List.length_range]
    · intro i hi
      rw [generateBalls_getD ballCount colorCount rand hok hi]
      have hmod : i % colorCount < colorCount := Nat.mod_lt i h1
      exact ⟨rfl, palette_getD_mem_take hmod h2, rfl, rfl⟩

/-- Witness for C4 at `ballCount = 8`, `colorCount = 2` (both branches of the
conjunction instantiated; the validation branch is vacuous there since
`8 ≥ 4`). -/
theorem generateBalls_spec_witness :
    ((8 : ℕ) < 2 * 2 →
      generateBalls 8 2 (fun _ => (0, 0)) = (some (errorMsg 8 2), [])) ∧
    (¬ (8 : ℕ) < 2 * 2 →
      (generateBalls 8 2 (fun _ => (0, 0))).1 = none ∧
      (generateBalls 8 2 (fun _ => (0, 0))).2.length = 8 ∧
      ∀ i, i < 8 →
        ((generateBalls 8 2 (fun _ => (0, 0))).2.getD i ⟨0, 0, 0, 0, ""⟩).color =
            palette.getD (i % 2) "undefined" ∧
          ((generateBalls 8 2 (fun _ => (0, 0))).2.getD i ⟨0, 0, 0, 0, ""⟩).color ∈
            palette.take 2 ∧
          ((generateBalls 8 2 (fun _ => (0, 0))).2.getD i ⟨0, 0, 0, 0, ""⟩).vx = 0 ∧
          ((generateBalls 8 2 (fun _ => (0, 0))).2.getD i ⟨0, 0, 0, 0, ""⟩).vy = 0) :=
  generateBalls_spec 8 2 (fun _ => (0, 0)) (by norm_num) (by norm_num)

/-- C10: every ball of a freshly generated batch already lies inside the
arena bounds (`Math.random()` returns a value in `[0, 1)`, scaled by
`FIELD_WIDTH - BALL_SIZE` resp. `FIELD_HEIGHT - BALL_SIZE`) and has zero
velocity, so the containment and speed invariants hold at spawn. -/
theorem generateBalls_in_bounds (ballCount colorCount : ℕ) (rand : ℕ → ℚ × ℚ)
    (hrand : ∀ i, 0 ≤ (rand i).1 ∧ (rand i).1 < 1 ∧ 0 ≤ (rand i).2 ∧ (rand i).2 < 1) :
    ∀ b ∈ (generateBalls ballCount colorCount rand).2,
      0 ≤ b.x ∧ b.x ≤ FIELD_WIDTH - BALL_SIZE ∧
        0 ≤ b.y ∧ b.y ≤ FIELD_HEIGHT - BALL_SIZE ∧ b.vx = 0 ∧ b.vy = 0 := by
  intro b hb
  simp only [generateBalls] at hb
  split at hb
  · simp at hb
  · simp only [List.mem_map, List.mem_range] at hb
    obtain ⟨i, _, hbi⟩ := hb
    obtain ⟨h1, h2, h3, h4⟩ := hrand i
    subst hbi
    dsimp only
    have hw : (0 : ℚ) ≤ FIELD_WIDTH - BALL_SIZE := by norm_num [FIELD_WIDTH, BALL_SIZE]
    have hh : (0 : ℚ) ≤ FIELD_HEIGHT - BALL_SIZE := by norm_num [FIELD_HEIGHT, BALL_SIZE]
    refine ⟨mul_nonneg h1 hw, ?_, mul_nonneg h3 hh, ?_, rfl, rfl⟩
    · nlinarith
    · nlinarith

/-- Witness for C10 with `Math.random()` samples fixed at `(1/2, 1/3)`,
evaluated at the first generated ball. -/
theorem generateBalls_in_bounds_witness :
    0 ≤ ((generateBalls 8 2 (fun _ => (1/2, 1/3))).2.getD 0 ⟨0, 0, 0, 0, ""⟩).x ∧
      ((generateBalls 8 2 (fun _ => (1/2, 1/3))).2.getD 0 ⟨0, 0, 0, 0, ""⟩).x ≤
        FIELD_WIDTH - BALL_SIZE ∧
      0 ≤ ((generateBalls 8 2 (fun _ => (1/2, 1/3))).2.getD 0 ⟨0, 0, 0, 0, ""⟩).y ∧
      ((generateBalls 8 2 (fun _ => (1/2, 1/3))).2.getD 0 ⟨0, 0, 0, 0, ""⟩).y ≤
        FIELD_HEIGHT - BALL_SIZE ∧
      ((generateBalls 8 2 (fun _ => (1/2, 1/3))).2.getD 0 ⟨0, 0, 0, 0, ""⟩).vx = 0 ∧
      ((generateBalls 8 2 (fun _ => (1/2, 1/3))).2.getD 0 ⟨0, 0, 0, 0, ""⟩).vy = 0 := by
  have hlen : 0 < (generateBalls 8 2 (fun _ => (1/2, 1/3))).2.length := by
    simp only [generateBalls]
    rw [if_neg (by norm_num)]
    simp
  have hmem : (generateBalls 8 2 (fun _ => (1/2, 1/3))).2.getD 0 ⟨0, 0, 0, 0, ""⟩ ∈
      (generateBalls 8 2 (fun _ => (1/2, 1/3))).2 := by
    rw [List.getD_eq_getElem?_getD, List.getElem?_eq_getElem hlen]
    exact List.getElem_mem _
  exact generateBalls_in_bounds 8 2 (fun _ => (1/2, 1/3)) (fun _ => by norm_num) _ hmem

/-- Boundary handling is the identity on in-range positions. -/
lemma bounce_id {p v M q w : ℝ} (h0 : 0 ≤ p) (h1 : p ≤ M)
    (hb : bounceAxis p v M q w) : q = p := by
  rcases hb with ⟨hc, hp, _⟩ | ⟨_, hc, hp, _⟩ | ⟨_, _, hp, _⟩ <;> first
    | (exact absurd hc (by linarith))
    | exact hp

/-- Moving two in-range points apart along an axis and then clamping them
into `[0, M]` strictly grows their gap, as long as the gap is positive and
below `M`. -/
lemma bounce_gap {x0 x1 h M a bb va vb av bv : ℝ}
    (h0 : 0 ≤ x0) (h1 : x0 ≤ M) (_h2 : 0 ≤ x1) (h3 : x1 ≤ M)
    (hg : x0 < x1) (hgM : x1 - x0 < M) (hh : 0 < h)
    (ha : bounceAxis (x0 - h) va M a av) (hb : bounceAxis (x1 + h) vb M bb bv) :
    x1 - x0 < bb - a := by
  rcases ha with ⟨hc, hp, _⟩ | ⟨hc, hc', hp, _⟩ | ⟨hc, hc', hp, _⟩ <;>
    rcases hb with ⟨kc, kp, _⟩ | ⟨kc, kc', kp, _⟩ | ⟨kc, kc', kp, _⟩ <;>
      subst hp <;> subst kp <;> linarith

/-- Squared gaps grow (weakly, strictly off zero) under the per-axis gap
growth produced by the collision push. -/
lemma sq_gap_mono {g gnew : ℝ}
    (h1 : 0 < g → g < gnew) (h2 : g < 0 → gnew < g) (h3 : g = 0 → gnew = 0) :
    g ^ 2 ≤ gnew ^ 2 ∧ (g ≠ 0 → g ^ 2 < gnew ^ 2) := by
  rcases lt_trichotomy g 0 with hg | hg | hg
  · have := h2 hg
    constructor
    · nlinarith
    · intro _; nlinarith
  · rw [hg, h3 hg]
    simp
  · have := h1 hg
    constructor
    · nlinarith
    · intro _; nlinarith

/-- The concrete C7 counterexample frame: the overlapping pair with inward
velocities 6 and -6 is pushed apart to distance 20, but the strong inward
velocities carry the balls back toward each other during integration. -/
lemma stepCounter : stepList false none [cballA, cballB] [cballA2, cballB2] := by
  have hcol : collide cballA cballB
      ⟨95, 100, 5.7, 0, "red"⟩ ⟨115, 100, -5.7, 0, "blue"⟩ := by
    refine ⟨10, ⟨by norm_num, ?_⟩, Or.inl ⟨?_, by norm_num, ?_, ?_⟩⟩
    · simp only [cballA, cballB]
      norm_num
    · simp only [BALL_SIZE]
      push_cast
      norm_num
    · simp only [cballA, cballB, BALL_SIZE, Ball.mk.injEq]
      push_cast
      norm_num
    · simp only [cballA, cballB, BALL_SIZE, Ball.mk.injEq]
      push_cast
      norm_num
  have hint1 : integrateStep ⟨95, 100, 5.7, 0, "red"⟩ cballA2 := by
    refine ⟨5.529, ⟨by norm_num, ?_⟩, 5.7 * (FRICTION : ℝ), 0 * (FRICTION : ℝ),
      Or.inr ⟨?_, rfl, rfl⟩, ?_, ?_, rfl⟩
    · simp only [FRICTION]
      push_cast
      norm_num
    · simp only [MAX_SPEED]
      push_cast
      norm_num
    · refine Or.inr (Or.inr ⟨by norm_num, ?_, ?_, ?_⟩)
      · simp only [FIELD_WIDTH, BALL_SIZE]
        push_cast
        norm_num
      · simp only [cballA2]
        norm_num
      · simp only [cballA2, FRICTION]
        push_cast
        norm_num
    · refine Or.inr (Or.inr ⟨by norm_num, ?_, ?_, ?_⟩)
      · simp only [FIELD_HEIGHT, BALL_SIZE]
        push_cast
        norm_num
      · simp only [cballA2]
        norm_num
      · simp only [cballA2, FRICTION]
        push_cast
        norm_num
  have hint2 : integrateStep ⟨115, 100, -5.7, 0, "blue"⟩ cballB2 := by
    refine ⟨5.529, ⟨by norm_num, ?_⟩, -5.7 * (FRICTION : ℝ), 0 * (FRICTION : ℝ),
      Or.inr ⟨?_, rfl, rfl⟩, ?_, ?_, rfl⟩
    · simp only [FRICTION]
      push_cast
      norm_num
    · simp only [MAX_SPEED]
      push_cast
      norm_num
    · refine Or.inr (Or.inr ⟨by norm_num, ?_, ?_, ?_⟩)
      · simp only [FIELD_WIDTH, BALL_SIZE]
        push_cast
        norm_num
      · simp only [cballB2]
        norm_num
      · simp only [cballB2, FRICTION]
        push_cast
        norm_num
    · refine Or.inr (Or.inr ⟨by norm_num, ?_, ?_, ?_⟩)
      · simp only [FIELD_HEIGHT, BALL_SIZE]
        push_cast
        norm_num
      · simp only [cballB2]
        norm_num
      · simp only [cballB2, FRICTION]
        push_cast
        norm_num
  refine stepList.cons rfl ⟨_, _, hcol, [], ⟨rfl, rfl⟩, rfl⟩ hint1 ?_
  exact stepList.cons rfl ⟨rfl, rfl⟩ hint2 stepList.nil

/-- C7 (counterexample): a two-ball batch whose center distance 10 lies
strictly between 0 and the diameter 20, with inward velocities: after one
integrator step the squared center gap shrinks from 100 to 73.96, i.e. the
overlap strictly increases.  (Center differences equal top-left differences,
since both centers add `BALL_SIZE / 2`.) -/
theorem overlap_increase_example :
    stepList false none [cballA, cballB] [cballA2, cballB2] ∧
      0 < (cballA.x - cballB.x) ^ 2 + (cballA.y - cballB.y) ^ 2 ∧
      (cballA.x - cballB.x) ^ 2 + (cballA.y - cballB.y) ^ 2 < (BALL_SIZE : ℝ) ^ 2 ∧
      (cballA2.x - cballB2.x) ^ 2 + (cballA2.y - cballB2.y) ^ 2 <
        (cballA.x - cballB.x) ^ 2 + (cballA.y - cballB.y) ^ 2 := by
  refine ⟨stepCounter, ?_, ?_, ?_⟩
  · simp only [cballA, cballB]
    norm_num
  · simp only [cballA, cballB, BALL_SIZE]
    push_cast
    norm_num
  · simp only [cballA, cballB, cballA2, cballB2]
    norm_num

/-- Inversion of one frame on a two-ball batch with no cursor and the session
running: the head ball collides with the tail ball, then each integrates. -/
lemma stepList_two {b0 b1 out0 out1 : Ball ℝ}
    (h : stepList false none [b0, b1] [out0, out1]) :
    ∃ bm om, collide b0 b1 bm om ∧ integrateStep bm out0 ∧ integrateStep om out1 := by
  cases h with
  | cons hcur hcol hint hrest =>
    obtain ⟨bm, om, hc, rest2, hcl2, heq⟩ := hcol
    obtain ⟨hb2m, hrest2nil⟩ := hcl2
    subst hb2m
    subst hrest2nil
    subst heq
    have hA : _ = b0 := hcur
    subst hA
    cases hrest with
    | cons hcur2 hcol2 hint2 hrest2 =>
      obtain ⟨ho2, hrest3nil⟩ := hcol2
      subst ho2
      have hB : _ = om := hcur2
      subst hB
      exact ⟨_, _, hc, hint, hint2⟩

/-- Per-axis effect of the collision separation: both balls start inside
`[0, M]`, are moved apart along the axis by `(p0 - p1) * c` each (with
`c > 0`), and then clamped by the boundary handling; the axis gap keeps its
sign and cannot shrink, strictly growing when it is nonzero. -/
lemma axis_gap {p0 p1 c M a0 a1 v0 v1 w0 w1 : ℝ}
    (hp0 : 0 ≤ p0) (hp0M : p0 ≤ M) (hp1 : 0 ≤ p1) (hp1M : p1 ≤ M)
    (hc : 0 < c) (hgap : p0 - p1 < M) (hgap2 : p1 - p0 < M)
    (h0 : bounceAxis (p0 + (p0 - p1) * c) v0 M a0 w0)
    (h1 : bounceAxis (p1 - (p0 - p1) * c) v1 M a1 w1) :
    (0 < p0 - p1 → p0 - p1 < a0 - a1) ∧
    (p0 - p1 < 0 → a0 - a1 < p0 - p1) ∧
    (p0 - p1 = 0 → a0 - a1 = 0) := by
  refine ⟨?_, ?_, ?_⟩
  · intro hg
    have hh : 0 < (p0 - p1) * c := mul_pos hg hc
    exact bounce_gap hp1 hp1M hp0 hp0M (by linarith) hgap hh h1 h0
  · intro hg
    have hh : 0 < -(p0 - p1) * c := mul_pos (by linarith) hc
    have h0x : bounceAxis (p0 - -(p0 - p1) * c) v0 M a0 w0 := by
      rw [show p0 - -(p0 - p1) * c = p0 + (p0 - p1) * c from by ring]
      exact h0
    have h1x : bounceAxis (p1 + -(p0 - p1) * c) v1 M a1 w1 := by
      rw [show p1 + -(p0 - p1) * c = p1 - (p0 - p1) * c from by ring]
      exact h1
    have hres := bounce_gap hp0 hp0M hp1 hp1M (by linarith) hgap2 hh h0x h1x
    linarith
  · intro hg
    have e0 : p0 + (p0 - p1) * c = p0 := by rw [hg]; ring
    have e1 : p1 - (p0 - p1) * c = p1 := by rw [hg]; ring
    rw [e0] at h0
    rw [e1] at h1
    have ha0 := bounce_id hp0 hp0M h0
    have ha1 := bounce_id hp1 hp1M h1
    linarith

set_option maxHeartbeats 1600000 in
/-- C7 (amended): for a two-ball batch at rest (zero velocities, as a fresh
spawn produces), positioned inside the arena, with no cursor and the session
running, and center distance strictly between 0 and the diameter
`BALL_SIZE = 20`, one integrator step strictly decreases the overlap: the
squared center gap strictly grows (center differences equal top-left
differences since both centers add `BALL_SIZE / 2`), hence
`BALL_SIZE - distance` strictly drops and in particular never increases.
Without the at-rest/containment restriction the claim is false — see
`overlap_increase_example`. -/
theorem step_overlap_decreases (b0 b1 out0 out1 : Ball ℝ)
    (hv0x : b0.vx = 0) (hv0y : b0.vy = 0) (hv1x : b1.vx = 0) (hv1y : b1.vy = 0)
    (hb0x : 0 ≤ b0.x) (hb0xM : b0.x ≤ (FIELD_WIDTH : ℝ) - (BALL_SIZE : ℝ))
    (hb0y : 0 ≤ b0.y) (hb0yM : b0.y ≤ (FIELD_HEIGHT : ℝ) - (BALL_SIZE : ℝ))
    (hb1x : 0 ≤ b1.x) (hb1xM : b1.x ≤ (FIELD_WIDTH : ℝ) - (BALL_SIZE : ℝ))
    (hb1y : 0 ≤ b1.y) (hb1yM : b1.y ≤ (FIELD_HEIGHT : ℝ) - (BALL_SIZE : ℝ))
    (hpos : 0 < (b0.x - b1.x) ^ 2 + (b0.y - b1.y) ^ 2)
    (hover : (b0.x - b1.x) ^ 2 + (b0.y - b1.y) ^ 2 < (BALL_SIZE : ℝ) ^ 2)
    (hstep : stepList false none [b0, b1] [out0, out1]) :
    (b0.x - b1.x) ^ 2 + (b0.y - b1.y) ^ 2 <
      (out0.x - out1.x) ^ 2 + (out0.y - out1.y) ^ 2 := by
  obtain ⟨bm, om, hc, hintA, hintB⟩ := stepList_two hstep
  have hBS : (BALL_SIZE : ℝ) = 20 := by
    simp only [BALL_SIZE]
    push_cast
    norm_num
  have hFW : (FIELD_WIDTH : ℝ) = 600 := by
    simp only [FIELD_WIDTH]
    push_cast
    norm_num
  have hFH : (FIELD_HEIGHT : ℝ) = 500 := by
    simp only [FIELD_HEIGHT]
    push_cast
    norm_num
  obtain ⟨d, ⟨hd0, hd2⟩, hbr⟩ := hc
  have hBSpos : (0 : ℝ) < (BALL_SIZE : ℝ) := by rw [hBS]; norm_num
  have hdpos : 0 < d := by nlinarith
  have hdlt : d < (BALL_SIZE : ℝ) := by nlinarith
  have hdne : d ≠ 0 := ne_of_gt hdpos
  rcases hbr with ⟨hlt, hposd, hbmeq, homeq⟩ | ⟨hng, _, _⟩
  swap
  · exact absurd ⟨hdlt, hdpos⟩ hng
  have hbmx : bm.x = b0.x + (b0.x - b1.x) / d * ((BALL_SIZE : ℝ) - d) / 2 := by
    rw [hbmeq]
  have hbmy : bm.y = b0.y + (b0.y - b1.y) / d * ((BALL_SIZE : ℝ) - d) / 2 := by
    rw [hbmeq]
  have hbmvx : bm.vx = (b0.x - b1.x) / d * 0.3 := by
    rw [hbmeq]
    show b0.vx + (b0.x - b1.x) / d * 0.3 = _
    rw [hv0x, zero_add]
  have hbmvy : bm.vy = (b0.y - b1.y) / d * 0.3 := by
    rw [hbmeq]
    show b0.vy + (b0.y - b1.y) / d * 0.3 = _
    rw [hv0y, zero_add]
  have homx : om.x = b1.x - (b0.x - b1.x) / d * ((BALL_SIZE : ℝ) - d) / 2 := by
    rw [homeq]
  have homy : om.y = b1.y - (b0.y - b1.y) / d * ((BALL_SIZE : ℝ) - d) / 2 := by
    rw [homeq]
  have homvx : om.vx = -((b0.x - b1.x) / d * 0.3) := by
    rw [homeq]
    show b1.vx - (b0.x - b1.x) / d * 0.3 = _
    rw [hv1x]
    ring
  have homvy : om.vy = -((b0.y - b1.y) / d * 0.3) := by
    rw [homeq]
    show b1.vy - (b0.y - b1.y) / d * 0.3 = _
    rw [hv1y]
    ring
  have hcpos : 0 < (((BALL_SIZE : ℝ) - d) / 2 + 0.3) / d := by
    apply div_pos _ hdpos
    nlinarith
  obtain ⟨s, hs, vx2, vy2, hclamp, hbx, hby, _⟩ := hintA
  obtain ⟨s2, hs2, vx3, vy3, hclamp2, hbx2, hby2, _⟩ := hintB
  have hpx : bm.x + bm.vx =
      b0.x + (b0.x - b1.x) * ((((BALL_SIZE : ℝ) - d) / 2 + 0.3) / d) := by
    rw [hbmx, hbmvx]
    field_simp
    ring
  have hpy : bm.y + bm.vy =
      b0.y + (b0.y - b1.y) * ((((BALL_SIZE : ℝ) - d) / 2 + 0.3) / d) := by
    rw [hbmy, hbmvy]
    field_simp
    ring
  have hqx : om.x + om.vx =
      b1.x - (b0.x - b1.x) * ((((BALL_SIZE : ℝ) - d) / 2 + 0.3) / d) := by
    rw [homx, homvx]
    field_simp
    ring
  have hqy : om.y + om.vy =
      b1.y - (b0.y - b1.y) * ((((BALL_SIZE : ℝ) - d) / 2 + 0.3) / d) := by
    rw [homy, homvy]
    field_simp
    ring
  rw [hpx] at hbx
  rw [hpy] at hby
  rw [hqx] at hbx2
  rw [hqy] at hby2
  have hgx2 : (b0.x - b1.x) ^ 2 ≤ d ^ 2 := by nlinarith [sq_nonneg (b0.y - b1.y)]
  have hgy2 : (b0.y - b1.y) ^ 2 ≤ d ^ 2 := by nlinarith [sq_nonneg (b0.x - b1.x)]
  have hgxled : b0.x - b1.x ≤ d := by
    nlinarith [sq_nonneg (b0.x - b1.x - d)]
  have hgxged : b1.x - b0.x ≤ d := by
    nlinarith [sq_nonneg (b0.x - b1.x + d)]
  have hgyled : b0.y - b1.y ≤ d := by
    nlinarith [sq_nonneg (b0.y - b1.y - d)]
  have hgyged : b1.y - b0.y ≤ d := by
    nlinarith [sq_nonneg (b0.y - b1.y + d)]
  have hgapx1 : b0.x - b1.x < (FIELD_WIDTH : ℝ) - (BALL_SIZE : ℝ) := by
    rw [hFW, hBS]
    rw [hBS] at hdlt
    linarith
  have hgapx2 : b1.x - b0.x < (FIELD_WIDTH : ℝ) - (BALL_SIZE : ℝ) := by
    rw [hFW, hBS]
    rw [hBS] at hdlt
    linarith
  have hgapy1 : b0.y - b1.y < (FIELD_HEIGHT : ℝ) - (BALL_SIZE : ℝ) := by
    rw [hFH, hBS]
    rw [hBS] at hdlt
    linarith
  have hgapy2 : b1.y - b0.y < (FIELD_HEIGHT : ℝ) - (BALL_SIZE : ℝ) := by
    rw [hFH, hBS]
    rw [hBS] at hdlt
    linarith
  obtain ⟨HX1, HX2, HX3⟩ :=
    axis_gap hb0x hb0xM hb1x hb1xM hcpos hgapx1 hgapx2 hbx hbx2
  obtain ⟨HY1, HY2, HY3⟩ :=
    axis_gap hb0y hb0yM hb1y hb1yM hcpos hgapy1 hgapy2 hby hby2
  obtain ⟨hxle, hxlt⟩ := sq_gap_mono HX1 HX2 HX3
  obtain ⟨hyle, hylt⟩ := sq_gap_mono HY1 HY2 HY3
  by_cases hgx : b0.x - b1.x = 0
  · have hgy : b0.y - b1.y ≠ 0 := by
      intro h
      rw [hgx, h] at hpos
      norm_num at hpos
    have := hylt hgy
    linarith
  · have := hxlt hgx
    linarith

/-- The concrete C7 witness frame: the resting overlapping pair is pushed
apart and drifts further apart under the impulse velocities. -/
lemma stepWitness : stepList false none [wballA, wballB] [wballA2, wballB2] := by
  have hcol : collide wballA wballB
      ⟨95, 100, -0.3, 0, "red"⟩ ⟨115, 100, 0.3, 0, "blue"⟩ := by
    refine ⟨10, ⟨by norm_num, ?_⟩, Or.inl ⟨?_, by norm_num, ?_, ?_⟩⟩
    · simp only [wballA, wballB]
      norm_num
    · simp only [BALL_SIZE]
      push_cast
      norm_num
    · simp only [wballA, wballB, BALL_SIZE, Ball.mk.injEq]
      push_cast
      norm_num
    · simp only [wballA, wballB, BALL_SIZE, Ball.mk.injEq]
      push_cast
      norm_num
  have hint1 : integrateStep ⟨95, 100, -0.3, 0, "red"⟩ wballA2 := by
    refine ⟨0.291, ⟨by norm_num, ?_⟩, -0.3 * (FRICTION : ℝ), 0 * (FRICTION : ℝ),
      Or.inr ⟨?_, rfl, rfl⟩, ?_, ?_, rfl⟩
    · simp only [FRICTION]
      push_cast
      norm_num
    · simp only [MAX_SPEED]
      push_cast
      norm_num
    · refine Or.inr (Or.inr ⟨by norm_num, ?_, ?_, ?_⟩)
      · simp only [FIELD_WIDTH, BALL_SIZE]
        push_cast
        norm_num
      · simp only [wballA2]
        norm_num
      · simp only [wballA2, FRICTION]
        push_cast
        norm_num
    · refine Or.inr (Or.inr ⟨by norm_num, ?_, ?_, ?_⟩)
      · simp only [FIELD_HEIGHT, BALL_SIZE]
        push_cast
        norm_num
      · simp only [wballA2]
        norm_num
      · simp only [wballA2, FRICTION]
        push_cast
        norm_num
  have hint2 : integrateStep ⟨115, 100, 0.3, 0, "blue"⟩ wballB2 := by
    refine ⟨0.291, ⟨by norm_num, ?_⟩, 0.3 * (FRICTION : ℝ), 0 * (FRICTION : ℝ),
      Or.inr ⟨?_, rfl, rfl⟩, ?_, ?_, rfl⟩
    · simp only [FRICTION]
      push_cast
      norm_num
    · simp only [MAX_SPEED]
      push_cast
      norm_num
    · refine Or.inr (Or.inr ⟨by norm_num, ?_, ?_, ?_⟩)
      · simp only [FIELD_WIDTH, BALL_SIZE]
        push_cast
        norm_num
      · simp only [wballB2]
        norm_num
      · simp only [wballB2, FRICTION]
        push_cast
        norm_num
    · refine Or.inr (Or.inr ⟨by norm_num, ?_, ?_, ?_⟩)
      · simp only [FIELD_HEIGHT, BALL_SIZE]
        push_cast
        norm_num
      · simp only [wballB2]
        norm_num
      · simp only [wballB2, FRICTION]
        push_cast
        norm_num
  refine stepList.cons rfl ⟨_, _, hcol, [], ⟨rfl, rfl⟩, rfl⟩ hint1 ?_
  exact stepList.cons rfl ⟨rfl, rfl⟩ hint2 stepList.nil

/-- Witness for C7 (amended) at the concrete resting overlapping pair: the
squared gap grows from 100 to 424.36. -/
theorem step_overlap_decreases_witness :
    (wballA.x - wballB.x) ^ 2 + (wballA.y - wballB.y) ^ 2 <
      (wballA2.x - wballB2.x) ^ 2 + (wballA2.y - wballB2.y) ^ 2 :=
  step_overlap_decreases wballA wballB wballA2 wballB2
    rfl rfl rfl rfl
    (by simp only [wballA]; norm_num)
    (by simp only [wballA, FIELD_WIDTH, BALL_SIZE]; push_cast; norm_num)
    (by simp only [wballA]; norm_num)
    (by simp only [wballA, FIELD_HEIGHT, BALL_SIZE]; push_cast; norm_num)
    (by simp only [wballB]; norm_num)
    (by simp only [wballB, FIELD_WIDTH, BALL_SIZE]; push_cast; norm_num)
    (by simp only [wballB]; norm_num)
    (by simp only [wballB, FIELD_HEIGHT, BALL_SIZE]; push_cast; norm_num)
    (by simp only [wballA, wballB]; norm_num)
    (by simp only [wballA, wballB, BALL_SIZE]; push_cast; norm_num)
    stepWitness
